import Mathlib

/-!
Verification of the 3x-ui-cluster master control plane (master-slave proxy
management panel). The Go services are shallowly embedded as pure Lean
functions over an explicit database state: each table is a list of rows, Go
int64 counters become Int, and GORM queries/updates become list traversals.
JSON documents that the code parses (inbound settings, agent frames) are
embedded as already-parsed abstract syntax, with a dedicated constructor for
the parse-failure case so that the error paths of the Go code stay visible.
-/

namespace ThreeXUI

/-- One entry of the settings.clients array of an inbound, as seen by the
untyped JSON traversal in filterDisabledClients: either a JSON object (whose
email field may be absent or a non-string, both collapsed to none) together
with an opaque token standing for its remaining fields, or a non-object
JSON value. -/
inductive ClientEntry where
  | obj (email : Option String) (payload : Nat)
  | nonObj (payload : Nat)
deriving DecidableEq, Repr

/-- Parse result of an Inbound.Settings string: a document that is not valid
JSON, a JSON object without a clients key, a JSON object whose clients value
is not an array, or a JSON object with a clients array. The others token
stands for the remaining keys of the object, which the code preserves. -/
inductive SettingsDoc where
  | malformed (raw : Nat)
  | noClients (others : Nat)
  | clientsNotArray (others : Nat)
  | withClients (clients : List ClientEntry) (others : Nat)
deriving DecidableEq, Repr

/-- database/model.Slave row. The systemStats column stores the raw text of
the last heartbeat payload. -/
structure Slave where
  id : Int
  name : String
  address : String
  port : Int
  secret : String
  status : String
  lastSeen : Int
  version : String
  systemStats : String
deriving DecidableEq, Repr

/-- database/model.Inbound row; settings is carried in parsed form. -/
structure Inbound where
  id : Int
  slaveId : Int
  up : Int
  down : Int
  total : Int
  allTime : Int
  remark : String
  enable : Bool
  expiryTime : Int
  listen : String
  port : Int
  protocol : String
  settings : SettingsDoc
  streamSettings : Nat
  tag : String
  sniffing : Nat
deriving DecidableEq, Repr

/-- xray.ClientTraffic row (per-client counters and enable flag); accountId
zero means no account association. -/
structure ClientTraffic where
  inboundId : Int
  accountId : Int
  email : String
  enable : Bool
  up : Int
  down : Int
  total : Int
  expiryTime : Int
  allTime : Int
  lastOnline : Int
deriving DecidableEq, Repr

/-- database/model.Account row; up and down are cached sums over the
associated ClientTraffic rows. -/
structure Account where
  id : Int
  username : String
  subId : String
  enable : Bool
  totalGB : Int
  expiryTime : Int
  up : Int
  down : Int
  createdAt : Int
  updatedAt : Int
deriving DecidableEq, Repr

/-- database/model.AccountClient association row. -/
structure AccountClient where
  accountId : Int
  inboundId : Int
  clientEmail : String
  createdAt : Int
deriving DecidableEq, Repr

/-- database/model.OutboundTraffics row, keyed by (slaveId, tag). -/
structure OutboundTraffics where
  slaveId : Int
  tag : String
  up : Int
  down : Int
  total : Int
deriving DecidableEq, Repr

/-- database/model.SlaveCert row. -/
structure SlaveCert where
  slaveId : Int
  domain : String
  certPath : String
  keyPath : String
  expiryTime : Int
deriving DecidableEq, Repr

/-- database/model.SlaveSetting row, keyed by (slaveId, settingKey). -/
structure SlaveSetting where
  slaveId : Int
  settingKey : String
  settingValue : String
deriving DecidableEq, Repr

/-- database/model.InboundClientIps row. -/
structure InboundClientIps where
  clientEmail : String
  ips : String
deriving DecidableEq, Repr

/-- database/model.XrayOutbound row (only its slave key matters here). -/
structure XrayOutbound where
  slaveId : Int
  payload : Nat
deriving DecidableEq, Repr

/-- database/model.XrayRoutingRule row (only its slave key matters here). -/
structure XrayRoutingRule where
  slaveId : Int
  payload : Nat
deriving DecidableEq, Repr

/-- The whole embedded database: one list of rows per table. -/
structure DB where
  slaves : List Slave
  inbounds : List Inbound
  clientTraffics : List ClientTraffic
  accounts : List Account
  accountClients : List AccountClient
  inboundClientIps : List InboundClientIps
  outboundTraffics : List OutboundTraffics
  slaveCerts : List SlaveCert
  slaveSettings : List SlaveSetting
  xrayOutbounds : List XrayOutbound
  xrayRoutingRules : List XrayRoutingRule
deriving DecidableEq, Repr

/-- UPDATE ... WHERE p: rewrite every row satisfying p with f. -/
def updateWhere (p : α → Bool) (f : α → α) (l : List α) : List α :=
  l.map (fun x => if p x then f x else x)

/-- First(...) followed by Save: rewrite only the first row satisfying p. -/
def updateFirstWhere (p : α → Bool) (f : α → α) : List α → List α
  | [] => []
  | x :: xs => if p x then f x :: xs else x :: updateFirstWhere p f xs

/-- DELETE ... WHERE p: drop every row satisfying p. -/
def deleteWhere (p : α → Bool) (l : List α) : List α :=
  l.filter (fun x => !(p x))

/-- The ClientTraffic rows of one inbound, the query filterDisabledClients
starts from. -/
def inboundTraffics (db : DB) (inboundId : Int) : List ClientTraffic :=
  db.clientTraffics.filter (fun ct => ct.inboundId == inboundId)

/-- The positive account ids carried by a traffic-row list. -/
def accountIdsOf (traffics : List ClientTraffic) : List Int :=
  (traffics.filter (fun ct => ct.accountId > 0)).map (·.accountId)

/-- The account-id to enable-flag map of filterDisabledClients: built from
the accounts whose id occurs among the traffic rows; a Go map written in
iteration order is modelled by last-occurrence lookup. -/
def accountEnableMap (db : DB) (traffics : List ClientTraffic) (aid : Int) : Option Bool :=
  (((db.accounts.filter (fun a => (accountIdsOf traffics).contains a.id)).filter
    (fun a => a.id == aid)).getLast?).map (·.enable)

/-- The authoritative flag of one traffic row: the account flag when the row
carries a positive account id that resolves, the row flag otherwise. -/
def finalEnabled (db : DB) (traffics : List ClientTraffic) (ct : ClientTraffic) : Bool :=
  if ct.accountId > 0 then
    match accountEnableMap db traffics ct.accountId with
    | some accountEnabled => accountEnabled
    | none => ct.enable
  else ct.enable

/-- The email to enable-flag map of filterDisabledClients (last-occurrence
lookup as for a Go map built in iteration order). -/
def enableMapLookup (db : DB) (traffics : List ClientTraffic) (e : String) : Option Bool :=
  ((traffics.filter (fun ct => ct.email == e)).getLast?).map (finalEnabled db traffics)

/-- The per-entry decision of the filtering loop: drop non-object entries,
keep entries without a (non-empty string) email, and otherwise keep the entry
unless the map holds false for its email. -/
def clientDecision (db : DB) (traffics : List ClientTraffic) (c : ClientEntry) :
    Option ClientEntry :=
  match c with
  | .nonObj _ => none
  | .obj none _ => some c
  | .obj (some e) _ =>
    if e == "" then some c
    else match enableMapLookup db traffics e with
      | some false => none
      | _ => some c

/-- SlaveService.filterDisabledClients (web/service/slave.go): strips disabled
clients from the settings of one inbound. Returns the (possibly rewritten)
inbound together with true when the Go function returned a non-nil error
(only the settings-parse failure in this pure embedding). -/
def filterDisabledClients (db : DB) (inbound : Inbound) : Inbound × Bool :=
  match inbound.settings with
  | .malformed _ => (inbound, true)
  | .noClients _ => (inbound, false)
  | .clientsNotArray _ => (inbound, false)
  | .withClients clients others =>
    if clients.isEmpty then (inbound, false) else
    let clientTraffics := inboundTraffics db inbound.id
    let filteredClients := clients.filterMap (clientDecision db clientTraffics)
    ({ inbound with settings := .withClients filteredClients others }, false)

/-- Rendered engine-side inbound block (xray.InboundConfig). -/
structure InboundConfig where
  listen : String
  port : Int
  protocol : String
  settings : SettingsDoc
  streamSettings : Nat
  tag : String
  sniffing : Nat
deriving DecidableEq, Repr

/-- model.Inbound.GenXrayInboundConfig (database/model/model.go): empty listen
defaults to 0.0.0.0; the other fields are copied. -/
def genXrayInboundConfig (i : Inbound) : InboundConfig :=
  { listen := if i.listen == "" then "0.0.0.0" else i.listen
    port := i.port
    protocol := i.protocol
    settings := i.settings
    streamSettings := i.streamSettings
    tag := i.tag
    sniffing := i.sniffing }

/-- The engine config document assembled for a slave: the template sections
other than inbounds are opaque. -/
structure XrayConfig where
  inboundConfigs : List InboundConfig
  others : Nat
deriving DecidableEq, Repr

/-- Modelled from the spec: InboundService.GetInboundsForSlave
(web/service/inbound.go is not under src/). Per spec section 4.3 it loads the
Inbound rows belonging to the given slave. -/
def getInboundsForSlave (db : DB) (slaveId : Int) : List Inbound :=
  db.inbounds.filter (fun i => i.slaveId == slaveId)

/-- Loop body of SlaveService.PushConfig for one enabled inbound: filter its
disabled clients, fall back to the unfiltered inbound when the filter returns
an error, and render the engine-side block. -/
def renderInbound (db : DB) (inbound : Inbound) : InboundConfig :=
  let fr := filterDisabledClients db inbound
  let filteredInbound := if fr.2 then inbound else fr.1
  genXrayInboundConfig filteredInbound

/-- SlaveService.PushConfig (web/service/slave.go): parse the stored template
(none models both a missing template and an unmarshal failure), append one
rendered block per enabled inbound of the slave, then send the document over
the registered connection; the value returned in the ok case is the config
carried by the update_config_full frame. -/
def pushConfig (db : DB) (template : Option XrayConfig) (connected : Bool)
    (slaveId : Int) : Except Unit XrayConfig :=
  match template with
  | none => .error ()
  | some t =>
    let rendered := (getInboundsForSlave db slaveId).foldl (fun acc inbound =>
      if inbound.enable then acc ++ [renderInbound db inbound] else acc) []
    let finalConfig := { t with inboundConfigs := t.inboundConfigs ++ rendered }
    if connected then .ok finalConfig else .error ()

/-- Parse view of one frame received from a slave on the websocket: either
not valid JSON, or a JSON object with an optional type field and an optional
address field. -/
inductive ParsedFrame where
  | notJson
  | jsonObj (typeField : Option String) (address : Option String)
deriving DecidableEq, Repr

/-- One frame received from a slave: the raw text plus its parse view. -/
structure SlaveFrame where
  raw : String
  parsed : ParsedFrame
deriving DecidableEq, Repr

/-- The two branches the master read loop can take for an inbound frame. -/
inductive MasterAction where
  | processTrafficStats
  | recordSystemStats
deriving DecidableEq, Repr

/-- Dispatch of SlaveController.connectSlave (README code block): a frame is
routed to ProcessTrafficStats exactly when it parses as JSON with type equal
to traffic_stats; every other frame falls through to the system-stats branch
(UpdateSlaveStatus with the raw payload). -/
def connectSlaveDispatch (f : SlaveFrame) : MasterAction :=
  match f.parsed with
  | .jsonObj (some t) _ =>
    if t == "traffic_stats" then .processTrafficStats else .recordSystemStats
  | _ => .recordSystemStats

/-- SlaveService.UpdateSlaveStatus (web/service/slave.go): set status,
systemStats and lastSeen on the slave row; when the stats text is non-empty
and parses with a non-empty address field, also update the address. -/
def updateSlaveStatus (db : DB) (id : Int) (status : String) (statsRaw : String)
    (statsAddress : Option String) (now : Int) : DB :=
  let upd : Slave → Slave := fun sl =>
    let sl := { sl with status := status, systemStats := statsRaw, lastSeen := now }
    match statsAddress with
    | some a => if statsRaw != "" && a != "" then { sl with address := a } else sl
    | none => sl
  { db with slaves := updateWhere (fun sl => sl.id == id) upd db.slaves }

/-- One iteration of the connectSlave read loop on a received frame: either
hand the frame to ProcessTrafficStats (modelled separately), or record it as
the slave system-stats heartbeat via UpdateSlaveStatus. -/
def handleSlaveFrame (db : DB) (slaveId : Int) (f : SlaveFrame) (now : Int) :
    DB × MasterAction :=
  match connectSlaveDispatch f with
  | .processTrafficStats => (db, .processTrafficStats)
  | .recordSystemStats =>
    let addr := match f.parsed with
      | .jsonObj _ a => a
      | .notJson => none
    (updateSlaveStatus db slaveId "online" f.raw addr now, .recordSystemStats)

/-- The 62-character alphabet of generateRandomSecret. -/
def secretCharset : List Char :=
  "abcdefghijklmnopqrstuvwxyzABCDEFGHIJKLMNOPQRSTUVWXYZ0123456789".toList

/-- generateRandomSecret (web/service/slave.go): every byte is the charset
entry indexed by the current clock reading modulo the charset size; unixNano
models the successive time.Now().UnixNano() readings. -/
def generateRandomSecret (length : Nat) (unixNano : Nat → Nat) : String :=
  String.mk ((List.range length).map
    (fun i => secretCharset.getD (unixNano i % secretCharset.length) 'a'))

/-- SlaveService.AddSlave (web/service/slave.go): generate a secret when none
is provided, force status offline and lastSeen, then insert the row. The
slaves table has no uniqueness constraint on secret (database/model/model.go)
and the code performs no duplicate check. -/
def addSlave (db : DB) (slave : Slave) (unixNano : Nat → Nat) (now : Int) : DB :=
  let slave := if slave.secret == "" then
      { slave with secret := generateRandomSecret 32 unixNano }
    else slave
  let slave := { slave with status := "offline", lastSeen := now }
  { db with slaves := db.slaves ++ [slave] }

/-- AccountService.GetAccountTraffic (web/service/account.go): sums up and
down over the ClientTraffic rows whose account_id is the given account. -/
def getAccountTraffic (db : DB) (accountId : Int) : Int × Int :=
  let rows := db.clientTraffics.filter (fun ct => ct.accountId == accountId)
  (rows.foldl (fun s ct => s + ct.up) 0, rows.foldl (fun s ct => s + ct.down) 0)

/-- AccountService.GetAccount: load the row by id and overwrite its cached
up and down with the live aggregation. -/
def getAccount (db : DB) (id : Int) : Option Account :=
  (db.accounts.find? (fun a => a.id == id)).map (fun a =>
    let t := getAccountTraffic db a.id
    { a with up := t.1, down := t.2 })

/-- AccountService.GetAccountTrafficUsage: collect the client emails
associated to the account through AccountClient rows, then sum up and down
over the ClientTraffic rows with those emails; no associations means zero. -/
def getAccountTrafficUsage (db : DB) (accountId : Int) : Int × Int :=
  let associations := db.accountClients.filter (fun ac => ac.accountId == accountId)
  if associations.isEmpty then (0, 0)
  else
    let emails := associations.map (·.clientEmail)
    let rows := db.clientTraffics.filter (fun ct => emails.contains ct.email)
    (rows.foldl (fun s ct => s + ct.up) 0, rows.foldl (fun s ct => s + ct.down) 0)

/-- Failure injection for the three database operations inside the
UpdateAccount transaction, in program order: the account save, the
association query, and the client enable update. A true flag makes that
operation return a storage error, which rolls the transaction back. -/
structure TxFail where
  failSave : Bool
  failFind : Bool
  failUpdate : Bool
deriving DecidableEq, Repr

/-- AccountService.UpdateAccount (web/service/account.go): reject a missing
account, a username conflict, and the disabled-to-enabled transition when the
associated usage already reaches totalGB converted to bytes; otherwise save
the row and, when the enable flag changed, cascade the new flag to every
associated ClientTraffic row, all inside one transaction. -/
def updateAccount (db : DB) (acct : Account) (now : Int) (tf : TxFail) :
    Except Unit DB :=
  match getAccount db acct.id with
  | none => .error ()
  | some oldAccount =>
    if acct.username != oldAccount.username &&
        db.accounts.any (fun a => a.username == acct.username && a.id != acct.id) then
      .error ()
    else if acct.enable && !oldAccount.enable && decide (acct.totalGB > 0) &&
        (let u := getAccountTrafficUsage db acct.id
         decide (u.1 + u.2 >= acct.totalGB * 1024 * 1024 * 1024)) then
      .error ()
    else
      let acct := { acct with updatedAt := now, createdAt := oldAccount.createdAt }
      if tf.failSave then .error () else
      let newAccounts := updateWhere (fun a => a.id == acct.id) (fun _ => acct) db.accounts
      let db1 := { db with accounts := newAccounts }
      if acct.enable != oldAccount.enable then
        if tf.failFind then .error () else
        let associations := db1.accountClients.filter (fun ac => ac.accountId == acct.id)
        if associations.isEmpty then .ok db1
        else if tf.failUpdate then .error () else
        let emails := associations.map (·.clientEmail)
        let newTraffics := updateWhere (fun ct => emails.contains ct.email)
          (fun ct => { ct with enable := acct.enable }) db1.clientTraffics
        .ok { db1 with clientTraffics := newTraffics }
      else .ok db1

/-- Modelled from the spec: InboundService.GetInbound (web/service/inbound.go
is not under src/): loads one inbound row by id. -/
def getInbound (db : DB) (id : Int) : Option Inbound :=
  db.inbounds.find? (fun i => i.id == id)

/-- Modelled from the spec: InboundService.GetClients (web/service/inbound.go
is not under src/). Per spec sections 3 and 4.3 it parses the clients array
embedded in Inbound.settings into typed clients keyed by email; a settings
text that does not decode as an object with a well-typed clients array is an
error, a missing or empty clients key yields no clients, and an object entry
without an email field decodes to the empty email. -/
def getClients (i : Inbound) : Except Unit (List String) :=
  match i.settings with
  | .malformed _ => .error ()
  | .clientsNotArray _ => .error ()
  | .noClients _ => .ok []
  | .withClients clients _ =>
    if clients.any (fun c => match c with | .nonObj _ => true | _ => false) then
      .error ()
    else
      .ok (clients.filterMap (fun c => match c with
        | .obj e _ => some (e.getD "")
        | .nonObj _ => none))

/-- The model.Client argument passed to AddClientToAccount (only the fields
the function reads). -/
structure ClientArg where
  email : String
  enable : Bool
deriving DecidableEq, Repr

/-- AccountService.AddClientToAccount (web/service/account.go): inside one
transaction, reject an email already associated to an account, load the
inbound and its clients, create the association row, then either create a
fresh ClientTraffic row carrying the client own enable flag (only when the
client exists in the inbound) or stamp the account id onto the existing
ClientTraffic row, leaving its enable flag untouched. -/
def addClientToAccount (db : DB) (accountId inboundId : Int) (client : ClientArg)
    (now : Int) : Except Unit DB :=
  if db.accountClients.any (fun ac => ac.clientEmail == client.email) then .error ()
  else
  match getInbound db inboundId with
  | none => .error ()
  | some inbound =>
    match getClients inbound with
    | .error _ => .error ()
    | .ok emails =>
      let clientExists := emails.contains client.email
      let assoc : AccountClient :=
        { accountId := accountId, inboundId := inboundId,
          clientEmail := client.email, createdAt := now }
      let db1 := { db with accountClients := db.accountClients ++ [assoc] }
      match db1.clientTraffics.find? (fun ct => ct.email == client.email) with
      | none =>
        if !clientExists then .error ()
        else
          let newTraffic : ClientTraffic :=
            { inboundId := inboundId, accountId := accountId, email := client.email,
              enable := client.enable, up := 0, down := 0, total := 0,
              expiryTime := 0, allTime := 0, lastOnline := 0 }
          .ok { db1 with clientTraffics := db1.clientTraffics ++ [newTraffic] }
      | some _ =>
        let newTraffics := updateFirstWhere (fun ct => ct.email == client.email)
          (fun ct => { ct with accountId := accountId }) db1.clientTraffics
        .ok { db1 with clientTraffics := newTraffics }

/-- AccountService.RemoveClientFromAccount (web/service/account.go): drop the
association row and reset account_id to zero on the ClientTraffic rows with
that email. -/
def removeClientFromAccount (db : DB) (accountId : Int) (clientEmail : String) : DB :=
  let newAssocs := deleteWhere
    (fun ac => ac.accountId == accountId && ac.clientEmail == clientEmail)
    db.accountClients
  let db1 := { db with accountClients := newAssocs }
  let newTraffics := updateWhere (fun ct => ct.email == clientEmail)
    (fun ct => { ct with accountId := 0 }) db1.clientTraffics
  { db1 with clientTraffics := newTraffics }

/-- Spec invariant I3 as a decidable check: every disabled account has only
disabled ClientTraffic rows among those carrying its account id. -/
def invariantI3 (db : DB) : Bool :=
  db.accounts.all (fun a =>
    a.enable || db.clientTraffics.all (fun ct => ct.accountId != a.id || !ct.enable))

/-- Per-client body of the DeleteSlave inbound loop: drop the AccountClient
and InboundClientIps rows carrying one client email. -/
def deleteEmailRefs (acc2 : DB) (email : String) : DB :=
  let remAssocs := deleteWhere (fun (ac : AccountClient) => ac.clientEmail == email)
    acc2.accountClients
  let acc2 := { acc2 with accountClients := remAssocs }
  let remIps := deleteWhere (fun (ip : InboundClientIps) => ip.clientEmail == email)
    acc2.inboundClientIps
  { acc2 with inboundClientIps := remIps }

/-- Per-inbound body of the DeleteSlave loop: when the clients parse, drop
the association rows of every client email; in any case drop the
ClientTraffic rows of the inbound. -/
def deleteInboundDeps (acc : DB) (inbound : Inbound) : DB :=
  let acc : DB := match getClients inbound with
    | .ok emails => emails.foldl deleteEmailRefs acc
    | .error _ => acc
  let remTraffics := deleteWhere (fun (ct : ClientTraffic) => ct.inboundId == inbound.id)
    acc.clientTraffics
  { acc with clientTraffics := remTraffics }

/-- SlaveService.DeleteSlave (web/service/slave.go): inside one transaction,
for every inbound of the slave delete the AccountClient and InboundClientIps
rows of its parseable client emails (a GetClients failure is logged and those
deletes are skipped) and its ClientTraffic rows, then delete the inbounds and
the SlaveCert, OutboundTraffics, XrayOutbound, XrayRoutingRule and
SlaveSetting rows of the slave, and last the slave row itself. -/
def deleteSlave (db : DB) (id : Int) : DB :=
  let slaveInbounds := db.inbounds.filter (fun i => i.slaveId == id)
  let db1 := slaveInbounds.foldl deleteInboundDeps db
  let db2 := { db1 with inbounds := deleteWhere (fun i => i.slaveId == id) db1.inbounds }
  let db3 := { db2 with slaveCerts := deleteWhere (fun c => c.slaveId == id) db2.slaveCerts }
  let db4 := { db3 with outboundTraffics := deleteWhere (fun o => o.slaveId == id) db3.outboundTraffics }
  let db5 := { db4 with xrayOutbounds := deleteWhere (fun o => o.slaveId == id) db4.xrayOutbounds }
  let db6 := { db5 with xrayRoutingRules := deleteWhere (fun r => r.slaveId == id) db5.xrayRoutingRules }
  let db7 := { db6 with slaveSettings := deleteWhere (fun s => s.slaveId == id) db6.slaveSettings }
  { db7 with slaves := deleteWhere (fun s => s.id == id) db7.slaves }

/-- One (tag, uplink, downlink) entry of the inbounds or outbounds object of
a traffic_stats message; the deltas are the int64 values after the float
conversion the Go code performs. -/
structure TagStat where
  tag : String
  uplink : Int
  downlink : Int
deriving DecidableEq, Repr

/-- One entry of the users array of a traffic_stats message. -/
structure UserStat where
  email : String
  uplink : Int
  downlink : Int
deriving DecidableEq, Repr

/-- The parsed body of a traffic_stats message. -/
structure TrafficMsg where
  onlineClients : List String
  inbounds : List TagStat
  users : List UserStat
  outbounds : List TagStat
deriving DecidableEq, Repr

/-- Inbound-counter step of ProcessTrafficStats: add the deltas to every
Inbound row matching the tag and the reporting slave. -/
def applyInboundStat (slaveId : Int) (db : DB) (st : TagStat) : DB :=
  let newInbounds := updateWhere
    (fun (i : Inbound) => i.tag == st.tag && i.slaveId == slaveId)
    (fun i =>
      { i with
        up := i.up + st.uplink
        down := i.down + st.downlink
        allTime := i.allTime + (st.uplink + st.downlink) }) db.inbounds
  { db with inbounds := newInbounds }

/-- User-counter step of ProcessTrafficStats: skip empty emails and all-zero
deltas, otherwise add the deltas onto the first ClientTraffic row with that
email (a missing row is skipped). -/
def applyUserStat (nowSec : Int) (db : DB) (st : UserStat) : DB :=
  if st.email == "" || (st.uplink == 0 && st.downlink == 0) then db
  else
    let newTraffics := updateFirstWhere (fun (ct : ClientTraffic) => ct.email == st.email)
      (fun ct =>
        { ct with
          up := ct.up + st.uplink
          down := ct.down + st.downlink
          allTime := ct.allTime + st.uplink + st.downlink
          lastOnline := nowSec }) db.clientTraffics
    { db with clientTraffics := newTraffics }

/-- The distinct positive account ids of the ClientTraffic rows matching the
reported users, in first-seen order: the key set of accountTrafficMap in
ProcessTrafficStats. -/
def accountIdsFromUsers (db : DB) (users : List UserStat) : List Int :=
  users.foldl (fun (acc : List Int) st =>
    if st.email == "" then acc
    else match db.clientTraffics.find? (fun ct => ct.email == st.email) with
      | some ct =>
        if decide (ct.accountId > 0) && !acc.contains ct.accountId then
          acc ++ [ct.accountId]
        else acc
      | none => acc) []

/-- Account-aggregation step of ProcessTrafficStats: overwrite the account
up and down with the current sums over the ClientTraffic rows carrying its
account id, stamping updatedAt. -/
def syncAccountRow (nowMs : Int) (db : DB) (accountId : Int) : DB :=
  let rows := db.clientTraffics.filter (fun ct => ct.accountId == accountId)
  let totalUp := rows.foldl (fun s ct => s + ct.up) 0
  let totalDown := rows.foldl (fun s ct => s + ct.down) 0
  let newAccounts := updateWhere (fun (a : Account) => a.id == accountId)
    (fun a => { a with up := totalUp, down := totalDown, updatedAt := nowMs }) db.accounts
  { db with accounts := newAccounts }

/-- Outbound-counter step of ProcessTrafficStats: skip all-zero deltas,
otherwise FirstOrCreate the (slaveId, tag) row, add the deltas and overwrite
total with up plus down. -/
def applyOutboundStat (slaveId : Int) (db : DB) (st : TagStat) : DB :=
  if st.uplink == 0 && st.downlink == 0 then db
  else
    match db.outboundTraffics.find? (fun o => o.tag == st.tag && o.slaveId == slaveId) with
    | some _ =>
      let newOutbounds := updateFirstWhere
        (fun (o : OutboundTraffics) => o.tag == st.tag && o.slaveId == slaveId)
        (fun o =>
          let up := o.up + st.uplink
          let down := o.down + st.downlink
          { o with up := up, down := down, total := up + down }) db.outboundTraffics
      { db with outboundTraffics := newOutbounds }
    | none =>
      let created : OutboundTraffics :=
        { slaveId := slaveId, tag := st.tag, up := st.uplink, down := st.downlink,
          total := st.uplink + st.downlink }
      { db with outboundTraffics := db.outboundTraffics ++ [created] }

/-- The WHERE clause of checkAndDisableInvalidClients: the row belongs to an
inbound of the slave, has exhausted its quota or passed its expiry, and is
still enabled. -/
def invalidClientCond (db : DB) (slaveId nowMs : Int) (ct : ClientTraffic) : Bool :=
  db.inbounds.any (fun i => i.slaveId == slaveId && i.id == ct.inboundId) &&
  ((decide (ct.total > 0) && decide (ct.up + ct.down >= ct.total)) ||
   (decide (ct.expiryTime > 0) && decide (ct.expiryTime <= nowMs))) &&
  ct.enable

/-- SlaveService.checkAndDisableInvalidClients (web/service/slave.go): one
UPDATE setting enable to false on every matching row, returning the affected
row count. -/
def checkAndDisableInvalidClients (db : DB) (slaveId nowMs : Int) : DB × Nat :=
  let affected := (db.clientTraffics.filter (invalidClientCond db slaveId nowMs)).length
  let newTraffics := updateWhere (invalidClientCond db slaveId nowMs)
    (fun ct => { ct with enable := false }) db.clientTraffics
  ({ db with clientTraffics := newTraffics }, affected)

/-- Per-association body of the cascade shared by the two account policy
jobs: disable the ClientTraffic rows of the associated email and collect the
slave id of the associated inbound (positive, dedup). -/
def disableAssocStep (st2 : DB × List Int) (assoc : AccountClient) : DB × List Int :=
  let newTraffics := updateWhere (fun (ct : ClientTraffic) => ct.email == assoc.clientEmail)
    (fun ct => { ct with enable := false }) st2.1.clientTraffics
  let db2 := { st2.1 with clientTraffics := newTraffics }
  let slaves := match db2.inbounds.find? (fun i => i.id == assoc.inboundId) with
    | some inbound =>
      if decide (inbound.slaveId > 0) && !st2.2.contains inbound.slaveId then
        st2.2 ++ [inbound.slaveId]
      else st2.2
    | none => st2.2
  (db2, slaves)

/-- The shared per-account cascade of the two account policy jobs: disable
the account row, then run disableAssocStep over its associations. -/
def disableAccountAndClients (st : DB × List Int) (accountId : Int) : DB × List Int :=
  let newAccounts := updateWhere (fun (a : Account) => a.id == accountId)
    (fun a => { a with enable := false }) st.1.accounts
  let db1 := { st.1 with accounts := newAccounts }
  let associations := db1.accountClients.filter (fun ac => ac.accountId == accountId)
  associations.foldl disableAssocStep (db1, st.2)

/-- AccountService.DisableClientsExceedingAccountLimit (web/service/account.go
per part_006): over the snapshot of enabled accounts with a traffic limit,
disable each whose live associated usage reaches totalGB in bytes, cascading
to its clients and collecting the affected slave ids. -/
def disableClientsExceedingAccountLimit (db : DB) : DB × List Int :=
  let accounts := db.accounts.filter (fun a => decide (a.totalGB > 0) && a.enable)
  accounts.foldl (fun (st : DB × List Int) account =>
    let u := getAccountTrafficUsage st.1 account.id
    if u.1 + u.2 >= account.totalGB * 1024 * 1024 * 1024 then
      disableAccountAndClients st account.id
    else st) (db, [])

/-- AccountService.DisableExpiredAccountClients: over the snapshot of enabled
accounts whose expiry time is positive and passed, disable each with the same
cascade. -/
def disableExpiredAccountClients (db : DB) (nowMs : Int) : DB × List Int :=
  let expired := db.accounts.filter (fun a =>
    decide (a.expiryTime > 0) && decide (a.expiryTime <= nowMs) && a.enable)
  expired.foldl (fun (st : DB × List Int) account =>
    disableAccountAndClients st account.id) (db, [])

/-- Counter-accumulation phase of ProcessTrafficStats, in program order:
inbound counters, user counters, account aggregation over the account ids of
the reported users (read after the user updates), outbound counters. -/
def ingestCounters (db : DB) (slaveId : Int) (msg : TrafficMsg) (nowSec nowMs : Int) : DB :=
  let db := msg.inbounds.foldl (applyInboundStat slaveId) db
  let db := msg.users.foldl (applyUserStat nowSec) db
  let db := (accountIdsFromUsers db msg.users).foldl (syncAccountRow nowMs) db
  msg.outbounds.foldl (applyOutboundStat slaveId) db

/-- Policy phase of ProcessTrafficStats: the per-client check for this slave,
then the two account-level jobs; the returned flag says whether a config
push to the slave is attempted (needConfigPush). -/
def ingestPolicy (db : DB) (slaveId nowMs : Int) : DB × Bool :=
  let r1 := checkAndDisableInvalidClients db slaveId nowMs
  let r2 := disableClientsExceedingAccountLimit r1.1
  let r3 := disableExpiredAccountClients r2.1 nowMs
  (r3.1, decide (r1.2 > 0) || !r2.2.isEmpty || !r3.2.isEmpty)

/-- SlaveService.ProcessTrafficStats (web/service/slave.go): counters then
policy; the second component is true exactly when the pass calls PushConfig
for the reporting slave. -/
def processTrafficStats (db : DB) (slaveId : Int) (msg : TrafficMsg)
    (nowSec nowMs : Int) : DB × Bool :=
  ingestPolicy (ingestCounters db slaveId msg nowSec nowMs) slaveId nowMs

/-- The type discriminator the connectSlave read loop extracts from a frame. -/
def frameType (f : SlaveFrame) : Option String :=
  match f.parsed with
  | .jsonObj t _ => t
  | .notJson => none

/-- A database with every table empty, the starting point of the concrete
scenarios below. -/
def emptyDB : DB :=
  { slaves := [], inbounds := [], clientTraffics := [], accounts := [],
    accountClients := [], inboundClientIps := [], outboundTraffics := [],
    slaveCerts := [], slaveSettings := [], xrayOutbounds := [],
    xrayRoutingRules := [] }

theorem mem_updateWhere {α : Type} {p : α → Bool} {f : α → α} {l : List α} {x : α}
    (h : x ∈ updateWhere p f l) : ∃ a, a ∈ l ∧ x = if p a then f a else a := by
  simp only [updateWhere, List.mem_map] at h
  obtain ⟨a, ha, h2⟩ := h
  exact ⟨a, ha, h2.symm⟩

theorem mem_deleteWhere {α : Type} {p : α → Bool} {l : List α} {x : α}
    (h : x ∈ deleteWhere p l) : x ∈ l ∧ p x = false := by
  simpa only [deleteWhere, List.mem_filter, Bool.not_eq_true'] using h

theorem foldl_append_filter {α β : Type} (p : α → Bool) (g : α → β) :
    ∀ (l : List α) (acc : List β),
      l.foldl (fun acc2 x => if p x then acc2 ++ [g x] else acc2) acc =
        acc ++ (l.filter p).map g := by
  intro l
  induction l with
  | nil => intro acc; simp
  | cons x xs ih =>
    intro acc
    cases h : p x <;> simp [List.filter_cons, h, ih]

/-- A slave row with blank fields, a building block of concrete scenarios. -/
def blankSlave : Slave :=
  { id := 1
    name := "a"
    address := ""
    port := 0
    secret := ""
    status := ""
    lastSeen := 0
    version := ""
    systemStats := "" }

/-- A cert_report frame as modelled on the master side. -/
def certFrame : SlaveFrame :=
  { raw := "certreport", parsed := .jsonObj (some "cert_report") none }

/-- C6 counterexample: a frame whose JSON body carries type cert_report is
dispatched to the system-stats branch and its raw payload is stored as the
systemStats column of the slave row, contradicting the claim that it is
processed as a certificate report distinct from the heartbeat branch. -/
theorem cert_report_frame_stored_as_system_stats :
    connectSlaveDispatch certFrame = MasterAction.recordSystemStats ∧
    ((handleSlaveFrame { emptyDB with slaves := [{ blankSlave with secret := "s" }] }
        1 certFrame 9).1.slaves.map (fun sl => sl.systemStats)) = ["certreport"] := by
  constructor
  · rfl
  · rfl

/-- C6 (amended): the connectSlave read loop special-cases only frames whose
type field is traffic_stats; every other frame, cert_report included, goes to
the system-stats branch, which marks the slave online and overwrites its
systemStats column with the raw payload; ProcessCertReport is never invoked
by the loop. -/
theorem non_traffic_frame_goes_to_system_stats_branch (db : DB) (slaveId now : Int)
    (f : SlaveFrame) (h : frameType f ≠ some "traffic_stats") :
    (handleSlaveFrame db slaveId f now).2 = MasterAction.recordSystemStats ∧
    ∀ sl ∈ (handleSlaveFrame db slaveId f now).1.slaves, sl.id = slaveId →
      sl.systemStats = f.raw ∧ sl.status = "online" := by
  have hdisp : connectSlaveDispatch f = MasterAction.recordSystemStats := by
    unfold connectSlaveDispatch
    rcases hp : f.parsed with _ | ⟨t, a⟩
    · rfl
    · rcases t with _ | t
      · rfl
      · have ht : t ≠ "traffic_stats" := by
          intro he
          exact h (by simp [frameType, hp, he])
        have ht2 : (t == "traffic_stats") = false := by
          simpa using ht
        simp [ht2]
  have hmain : handleSlaveFrame db slaveId f now =
      (updateSlaveStatus db slaveId "online" f.raw
        (match f.parsed with | .jsonObj _ a => a | .notJson => none) now,
       MasterAction.recordSystemStats) := by
    unfold handleSlaveFrame
    rw [hdisp]
  rw [hmain]
  refine ⟨rfl, ?_⟩
  intro sl hmem hid
  simp only [updateSlaveStatus] at hmem
  obtain ⟨a, _, ha⟩ := mem_updateWhere hmem
  by_cases hpa : (a.id == slaveId) = true
  · simp only [hpa, if_true] at ha
    subst ha
    refine ⟨?_, ?_⟩ <;> (split <;> first | rfl | (split <;> rfl))
  · rw [Bool.not_eq_true] at hpa
    simp only [hpa, Bool.false_eq_true, if_false] at ha
    subst ha
    rw [hid] at hpa
    simp at hpa

/-- C6 amended witness: a cert_report frame on a concrete database. -/
theorem non_traffic_frame_goes_to_system_stats_branch_witness :
    (handleSlaveFrame emptyDB 3
      { raw := "x", parsed := .jsonObj (some "cert_report") none } 0).2 =
        MasterAction.recordSystemStats ∧
    ∀ sl ∈ (handleSlaveFrame emptyDB 3
        { raw := "x", parsed := .jsonObj (some "cert_report") none } 0).1.slaves,
      sl.id = 3 → sl.systemStats = "x" ∧ sl.status = "online" :=
  non_traffic_frame_goes_to_system_stats_branch emptyDB 3 0
    { raw := "x", parsed := .jsonObj (some "cert_report") none } (by decide)

/-- C9 counterexample: two AddSlave calls with auto-generated secrets under
identical clock readings insert two distinct slave rows whose 32-character
secrets coincide, so the secrets are not unique across slaves. -/
theorem add_slave_can_duplicate_secrets :
    (let clock : Nat → Nat := fun _ => 0
    let db := addSlave (addSlave emptyDB blankSlave clock 0) { blankSlave with id := 2 } clock 0
    (db.slaves.map (fun s => s.id)) = [1, 2] ∧
    ¬ (db.slaves.map (fun s => s.secret)).Nodup ∧
    ∀ s ∈ db.slaves, s.secret.length = 32) := by
  decide

theorem generateRandomSecret_length (n : Nat) (clock : Nat → Nat) :
    (generateRandomSecret n clock).length = n := by
  simp [generateRandomSecret, String.length]

theorem getD_mem_of_default_mem {l : List Char} {d : Char} (hd : d ∈ l) (n : Nat) :
    l.getD n d ∈ l := by
  rw [List.getD_eq_getElem?_getD]
  rcases h : l[n]? with _ | c
  · simpa using hd
  · simpa using List.getElem?_mem h

/-- C9 (amended): AddSlave with an empty secret always appends exactly one
row whose secret is the 32-character string drawn from the 62-character
alphabet and determined by the clock readings; no uniqueness check against
existing rows is performed and the slaves table carries no unique constraint
on secret, so nothing prevents equal secrets across rows. -/
theorem addSlave_appends_generated_secret (db : DB) (slave : Slave)
    (unixNano : Nat → Nat) (now : Int) (h : slave.secret = "") :
    ∃ s2 : Slave,
      addSlave db slave unixNano now = { db with slaves := db.slaves ++ [s2] } ∧
      s2.secret = generateRandomSecret 32 unixNano ∧
      s2.secret.length = 32 ∧
      s2.status = "offline" ∧
      ∀ c ∈ s2.secret.toList, c ∈ secretCharset := by
  refine ⟨{ slave with
            secret := generateRandomSecret 32 unixNano
            status := "offline"
            lastSeen := now }, ?_, rfl, ?_, rfl, ?_⟩
  · simp [addSlave, h]
  · exact generateRandomSecret_length 32 unixNano
  · intro c hc
    simp only [generateRandomSecret, String.toList, List.mem_map] at hc
    obtain ⟨i, _, hi⟩ := hc
    rw [← hi]
    exact getD_mem_of_default_mem (by decide) _

/-- C10: when an enabled inbound of the slave has settings that fail to
parse, filterDisabledClients returns an error, PushConfig logs it and falls
back to the original inbound: the assembly still succeeds (with a template
and a live connection) and the pushed config contains that inbound rendered
from its original, unfiltered settings, so disabled clients may be sent. -/
theorem pushConfig_keeps_unfiltered_inbound_on_filter_error (db : DB) (t : XrayConfig)
    (s : Int) (i : Inbound) (raw : Nat)
    (hmem : i ∈ db.inbounds) (hs : i.slaveId = s) (hen : i.enable = true)
    (hmal : i.settings = .malformed raw) :
    ∃ cfg, pushConfig db (some t) true s = Except.ok cfg ∧
      genXrayInboundConfig i ∈ cfg.inboundConfigs := by
  have hfilter : filterDisabledClients db i = (i, true) := by
    unfold filterDisabledClients
    rw [hmal]
  have hrender : renderInbound db i = genXrayInboundConfig i := by
    unfold renderInbound
    rw [hfilter]
    rfl
  refine ⟨_, rfl, ?_⟩
  show genXrayInboundConfig i ∈ t.inboundConfigs ++ _
  rw [foldl_append_filter (fun i2 : Inbound => i2.enable) (renderInbound db)]
  refine List.mem_append_right _ ?_
  rw [List.nil_append, List.mem_map]
  refine ⟨i, ?_, hrender⟩
  rw [List.mem_filter]
  refine ⟨?_, hen⟩
  simp only [getInboundsForSlave, List.mem_filter]
  exact ⟨hmem, by simp [hs]⟩

/-- An inbound with blank fields, a building block of concrete scenarios. -/
def blankInbound : Inbound :=
  { id := 10
    slaveId := 1
    up := 0
    down := 0
    total := 0
    allTime := 0
    remark := ""
    enable := true
    expiryTime := 0
    listen := ""
    port := 443
    protocol := "vless"
    settings := .noClients 0
    streamSettings := 0
    tag := "inb10"
    sniffing := 0 }

/-- C10 witness: a concrete database with one enabled inbound whose settings
are malformed. -/
theorem pushConfig_keeps_unfiltered_inbound_on_filter_error_witness :
    ∃ cfg,
      pushConfig { emptyDB with inbounds := [{ blankInbound with settings := .malformed 7 }] }
        (some { inboundConfigs := [], others := 0 }) true 1 = Except.ok cfg ∧
      genXrayInboundConfig { blankInbound with settings := .malformed 7 } ∈ cfg.inboundConfigs :=
  pushConfig_keeps_unfiltered_inbound_on_filter_error
    { emptyDB with inbounds := [{ blankInbound with settings := .malformed 7 }] }
    { inboundConfigs := [], others := 0 } 1 { blankInbound with settings := .malformed 7 } 7
    (by simp) rfl rfl rfl

/-- An account row with blank fields, a building block of concrete
scenarios. -/
def blankAccount : Account :=
  { id := 1
    username := "acct"
    subId := ""
    enable := true
    totalGB := 0
    expiryTime := 0
    up := 0
    down := 0
    createdAt := 0
    updatedAt := 0 }

/-- A client-traffic row with blank counters, a building block of concrete
scenarios. -/
def blankClientTraffic : ClientTraffic :=
  { inboundId := 10
    accountId := 0
    email := "u@x"
    enable := true
    up := 0
    down := 0
    total := 0
    expiryTime := 0
    allTime := 0
    lastOnline := 0 }

/-- The concrete database of the C5 scenario: one disabled account and one
inbound containing an enabled client with no traffic row yet. -/
def c5DB : DB :=
  { emptyDB with
    accounts := [{ blankAccount with enable := false }]
    inbounds := [{ blankInbound with settings := .withClients [.obj (some "u@x") 0] 0 }] }

/-- C5 counterexample: starting from a database satisfying invariant I3 with
a disabled account and an inbound containing an enabled client that has no
traffic row, AddClientToAccount succeeds and creates a ClientTraffic row that
carries the disabled account id with enable still true, so the invariant does
not hold after the operation. -/
theorem add_client_to_disabled_account_breaks_invariant :
    invariantI3 c5DB = true ∧
    ((addClientToAccount c5DB 1 10 { email := "u@x", enable := true } 0).toOption.map
      invariantI3) = some false := by
  decide

/-- C5 (amended): AddClientToAccount never applies the account enable flag to
the client: on the fresh-row path it installs the client own enable flag, so
associating an enabled client with a disabled account leaves the database
with a ClientTraffic row that carries the disabled account id while still
enabled, violating invariant I3; the invariant is only re-established by the
UpdateAccount cascade, the policy jobs or an explicit reset. -/
theorem addClientToAccount_keeps_client_enable_under_disabled_account
    (db db2 : DB) (a : Account) (inboundId now : Int) (client : ClientArg)
    (hmem : a ∈ db.accounts) (hdis : a.enable = false) (hcen : client.enable = true)
    (hfresh : ∀ ct ∈ db.clientTraffics, ct.email ≠ client.email)
    (hok : addClientToAccount db a.id inboundId client now = .ok db2) :
    a ∈ db2.accounts ∧ a.enable = false ∧
    ∃ ct ∈ db2.clientTraffics, ct.accountId = a.id ∧ ct.enable = true := by
  unfold addClientToAccount at hok
  split at hok
  · exact absurd hok (by simp)
  · split at hok
    · exact absurd hok (by simp)
    · split at hok
      · exact absurd hok (by simp)
      · dsimp only at hok
        split at hok
        · split at hok
          · exact absurd hok (by simp)
          · rw [Except.ok.injEq] at hok
            subst hok
            refine ⟨hmem, hdis, ?_⟩
            refine ⟨_, List.mem_append_right _ (List.mem_singleton_self _), rfl, hcen⟩
        · rename_i ct hct
          have hmem2 : ct ∈ db.clientTraffics := List.mem_of_find?_eq_some hct
          have := List.find?_some hct
          rw [beq_iff_eq] at this
          exact absurd this (hfresh ct hmem2)

/-- C5 amended witness: the concrete scenario of the counterexample run
through the amended theorem. -/
theorem addClientToAccount_keeps_client_enable_under_disabled_account_witness :
    ∃ db2 : DB,
      addClientToAccount c5DB 1 10 { email := "u@x", enable := true } 0 = Except.ok db2 ∧
      ({ blankAccount with enable := false } ∈ db2.accounts ∧
        ({ blankAccount with enable := false } : Account).enable = false ∧
        ∃ ct ∈ db2.clientTraffics, ct.accountId = 1 ∧ ct.enable = true) :=
  ⟨_, rfl,
    addClientToAccount_keeps_client_enable_under_disabled_account
      c5DB _ { blankAccount with enable := false } 10 0 { email := "u@x", enable := true }
      (by decide) rfl rfl (by decide) rfl⟩

/-- C7: UpdateAccount called with enable true on an account stored as
disabled, a positive totalGB, and an associated usage of at least totalGB
times 2 to the 30 returns an error before entering the transaction, for every
failure profile, so the stored account and the clients stay untouched. -/
theorem updateAccount_rejects_reenable_over_quota (db : DB) (acct : Account) (now : Int)
    (tf : TxFail) (a0 : Account)
    (hfind : db.accounts.find? (fun a => a.id == acct.id) = some a0)
    (hdis : a0.enable = false) (hen : acct.enable = true) (hgb : acct.totalGB > 0)
    (husage : (getAccountTrafficUsage db acct.id).1 + (getAccountTrafficUsage db acct.id).2 ≥
      acct.totalGB * 1024 * 1024 * 1024) :
    updateAccount db acct now tf = .error () := by
  unfold updateAccount getAccount
  rw [hfind]
  simp only [Option.map_some']
  have hc2 : (acct.enable && !a0.enable && decide (acct.totalGB > 0) &&
      (let u := getAccountTrafficUsage db acct.id
       decide (u.1 + u.2 >= acct.totalGB * 1024 * 1024 * 1024))) = true := by
    simp [hen, hdis, hgb, husage]
  simp [hc2]

/-- The concrete database of the C7 scenario: a disabled account whose single
associated client has already used one gibibyte. -/
def c7DB : DB :=
  { emptyDB with
    accounts := [{ blankAccount with enable := false, totalGB := 1 }]
    accountClients := [{ accountId := 1, inboundId := 10, clientEmail := "u@x", createdAt := 0 }]
    clientTraffics := [{ blankClientTraffic with accountId := 1, up := 1073741824 }] }

/-- C7 witness: the concrete rejected call. -/
theorem updateAccount_rejects_reenable_over_quota_witness :
    updateAccount c7DB { blankAccount with enable := true, totalGB := 1 } 5
      { failSave := false, failFind := false, failUpdate := false } = .error () :=
  updateAccount_rejects_reenable_over_quota c7DB
    { blankAccount with enable := true, totalGB := 1 } 5
    { failSave := false, failFind := false, failUpdate := false }
    { blankAccount with enable := false, totalGB := 1 }
    (by decide) rfl rfl (by decide) (by decide)

/-- C4: whenever UpdateAccount is called with an enable flag different from
the stored one and returns ok, the returned database has the account row
rewritten to the new flag and every ClientTraffic row associated to the
account through an AccountClient row rewritten to the same flag: the
transaction body admits no ok outcome in which one update happened without
the other, under every failure profile of its three operations. -/
theorem updateAccount_cascades_enable_in_transaction (db : DB) (acct : Account) (now : Int)
    (tf : TxFail) (db2 : DB) (a0 : Account)
    (hfind : db.accounts.find? (fun a => a.id == acct.id) = some a0)
    (hchange : acct.enable ≠ a0.enable)
    (hok : updateAccount db acct now tf = .ok db2) :
    (∀ a ∈ db2.accounts, a.id = acct.id → a.enable = acct.enable) ∧
    (∀ ct ∈ db2.clientTraffics,
      (∃ ac ∈ db2.accountClients, ac.accountId = acct.id ∧ ac.clientEmail = ct.email) →
      ct.enable = acct.enable) := by
  unfold updateAccount getAccount at hok
  rw [hfind] at hok
  simp only [Option.map_some'] at hok
  split at hok
  · exact absurd hok (by simp)
  · split at hok
    · exact absurd hok (by simp)
    · split at hok
      · exact absurd hok (by simp)
      · have hbne : (acct.enable != a0.enable) = true := by
          simpa using hchange
        rw [if_pos hbne] at hok
        have haccs : ∀ a ∈ db2.accounts, a.id = acct.id → a.enable = acct.enable := by
          intro a ha hid
          have hsub : db2.accounts =
              updateWhere (fun a2 => a2.id == acct.id)
                (fun _ => { acct with updatedAt := now, createdAt := a0.createdAt })
                db.accounts := by
            split at hok
            · exact absurd hok (by simp)
            · split at hok
              · rw [Except.ok.injEq] at hok
                subst hok
                rfl
              · split at hok
                · exact absurd hok (by simp)
                · rw [Except.ok.injEq] at hok
                  subst hok
                  rfl
          rw [hsub] at ha
          obtain ⟨x, hx, hxe⟩ := mem_updateWhere ha
          by_cases hpx : (x.id == acct.id) = true
          · rw [if_pos hpx] at hxe
            subst hxe
            rfl
          · rw [if_neg hpx] at hxe
            subst hxe
            exact absurd (by simp [hid]) hpx
        refine ⟨haccs, ?_⟩
        intro ct hct hex
        obtain ⟨ac, hac, hacid, hacem⟩ := hex
        split at hok
        · exact absurd hok (by simp)
        · split at hok
          · rename_i hempty
            rw [Except.ok.injEq] at hok
            subst hok
            exfalso
            have hmemf : ac ∈ List.filter (fun ac2 => ac2.accountId == acct.id) db.accountClients := by
              rw [List.mem_filter]
              exact ⟨hac, by simp [hacid]⟩
            rw [List.isEmpty_iff] at hempty
            rw [hempty] at hmemf
            simp at hmemf
          · split at hok
            · exact absurd hok (by simp)
            · rw [Except.ok.injEq] at hok
              subst hok
              obtain ⟨x, hx, hxe⟩ := mem_updateWhere hct
              have hmail : ct.email = x.email := by
                by_cases hpx : ((List.filter (fun ac2 => ac2.accountId == acct.id)
                    db.accountClients).map (fun ac2 => ac2.clientEmail)).contains x.email = true
                · rw [if_pos hpx] at hxe
                  subst hxe
                  rfl
                · rw [if_neg hpx] at hxe
                  subst hxe
                  rfl
              have hcontains : ((List.filter (fun ac2 => ac2.accountId == acct.id)
                  db.accountClients).map (fun ac2 => ac2.clientEmail)).contains x.email = true := by
                rw [List.contains_eq_any_beq, List.any_eq_true]
                refine ⟨ac.clientEmail, ?_, ?_⟩
                · rw [List.mem_map]
                  refine ⟨ac, ?_, rfl⟩
                  rw [List.mem_filter]
                  exact ⟨hac, by simp [hacid]⟩
                · rw [beq_iff_eq]
                  exact (hacem.trans hmail).symm
              rw [if_pos hcontains] at hxe
              subst hxe
              rfl

/-- The concrete database of the C4 witness: an enabled account with one
associated, enabled client. -/
def c4DB : DB :=
  { emptyDB with
    accounts := [blankAccount]
    accountClients := [{ accountId := 1, inboundId := 10, clientEmail := "u@x", createdAt := 0 }]
    clientTraffics := [{ blankClientTraffic with accountId := 1 }] }

/-- C4 witness: a concrete successful disable cascade. -/
theorem updateAccount_cascades_enable_in_transaction_witness :
    ∃ db2 : DB,
      updateAccount c4DB { blankAccount with enable := false } 5
        { failSave := false, failFind := false, failUpdate := false } = .ok db2 ∧
      ((∀ a ∈ db2.accounts, a.id = 1 → a.enable = false) ∧
        (∀ ct ∈ db2.clientTraffics,
          (∃ ac ∈ db2.accountClients, ac.accountId = 1 ∧ ac.clientEmail = ct.email) →
          ct.enable = false)) := by
  refine ⟨_, rfl, ?_⟩
  exact updateAccount_cascades_enable_in_transaction c4DB
    { blankAccount with enable := false } 5
    { failSave := false, failFind := false, failUpdate := false } _
    blankAccount (by decide) (by decide) rfl

theorem deleteEmailRefs_fold_proj : ∀ (es : List String) (acc : DB),
    ((es.foldl deleteEmailRefs acc).slaves = acc.slaves ∧
     (es.foldl deleteEmailRefs acc).inbounds = acc.inbounds ∧
     (es.foldl deleteEmailRefs acc).clientTraffics = acc.clientTraffics) ∧
    ((es.foldl deleteEmailRefs acc).slaveCerts = acc.slaveCerts ∧
     (es.foldl deleteEmailRefs acc).outboundTraffics = acc.outboundTraffics ∧
     (es.foldl deleteEmailRefs acc).slaveSettings = acc.slaveSettings) ∧
    ((es.foldl deleteEmailRefs acc).xrayOutbounds = acc.xrayOutbounds ∧
     (es.foldl deleteEmailRefs acc).xrayRoutingRules = acc.xrayRoutingRules) := by
  intro es
  induction es with
  | nil => intro acc; exact ⟨⟨rfl, rfl, rfl⟩, ⟨rfl, rfl, rfl⟩, rfl, rfl⟩
  | cons e es ih => intro acc; exact ih (deleteEmailRefs acc e)

theorem deleteInboundDeps_clientTraffics (acc : DB) (i : Inbound) :
    (deleteInboundDeps acc i).clientTraffics =
      deleteWhere (fun ct => ct.inboundId == i.id) acc.clientTraffics := by
  unfold deleteInboundDeps
  rcases h : getClients i with _ | es
  · rfl
  · have := ((deleteEmailRefs_fold_proj es acc).1).2.2
    simp only [this]

theorem deleteInboundDeps_accountClients (acc : DB) (i : Inbound) :
    (deleteInboundDeps acc i).accountClients =
      (match getClients i with
       | .ok es => (es.foldl deleteEmailRefs acc).accountClients
       | .error _ => acc.accountClients) := by
  unfold deleteInboundDeps
  rcases h : getClients i with _ | es <;> rfl

theorem deleteInboundDeps_proj (acc : DB) (i : Inbound) :
    ((deleteInboundDeps acc i).slaves = acc.slaves ∧
     (deleteInboundDeps acc i).inbounds = acc.inbounds) ∧
    ((deleteInboundDeps acc i).slaveCerts = acc.slaveCerts ∧
     (deleteInboundDeps acc i).outboundTraffics = acc.outboundTraffics ∧
     (deleteInboundDeps acc i).slaveSettings = acc.slaveSettings) ∧
    ((deleteInboundDeps acc i).xrayOutbounds = acc.xrayOutbounds ∧
     (deleteInboundDeps acc i).xrayRoutingRules = acc.xrayRoutingRules) := by
  unfold deleteInboundDeps
  rcases h : getClients i with _ | es
  · exact ⟨⟨rfl, rfl⟩, ⟨rfl, rfl, rfl⟩, rfl, rfl⟩
  · have hp := deleteEmailRefs_fold_proj es acc
    exact ⟨⟨hp.1.1, hp.1.2.1⟩, ⟨hp.2.1.1, hp.2.1.2.1, hp.2.1.2.2⟩, hp.2.2.1, hp.2.2.2⟩

theorem foldDeps_proj : ∀ (l : List Inbound) (acc : DB),
    ((l.foldl deleteInboundDeps acc).slaves = acc.slaves ∧
     (l.foldl deleteInboundDeps acc).inbounds = acc.inbounds) ∧
    ((l.foldl deleteInboundDeps acc).slaveCerts = acc.slaveCerts ∧
     (l.foldl deleteInboundDeps acc).outboundTraffics = acc.outboundTraffics ∧
     (l.foldl deleteInboundDeps acc).slaveSettings = acc.slaveSettings) ∧
    ((l.foldl deleteInboundDeps acc).xrayOutbounds = acc.xrayOutbounds ∧
     (l.foldl deleteInboundDeps acc).xrayRoutingRules = acc.xrayRoutingRules) := by
  intro l
  induction l with
  | nil => intro acc; exact ⟨⟨rfl, rfl⟩, ⟨rfl, rfl, rfl⟩, rfl, rfl⟩
  | cons i l ih =>
    intro acc
    have hstep := deleteInboundDeps_proj acc i
    have hrest := ih (deleteInboundDeps acc i)
    refine ⟨⟨?_, ?_⟩, ⟨?_, ?_, ?_⟩, ?_, ?_⟩
    · exact hrest.1.1.trans hstep.1.1
    · exact hrest.1.2.trans hstep.1.2
    · exact hrest.2.1.1.trans hstep.2.1.1
    · exact hrest.2.1.2.1.trans hstep.2.1.2.1
    · exact hrest.2.1.2.2.trans hstep.2.1.2.2
    · exact hrest.2.2.1.trans hstep.2.2.1
    · exact hrest.2.2.2.trans hstep.2.2.2

theorem mem_clientTraffics_foldDeps : ∀ (l : List Inbound) (acc : DB) (ct : ClientTraffic),
    ct ∈ (l.foldl deleteInboundDeps acc).clientTraffics →
    ct ∈ acc.clientTraffics ∧ ∀ i ∈ l, ct.inboundId ≠ i.id := by
  intro l
  induction l with
  | nil =>
    intro acc ct h
    exact ⟨h, by intro i hi; cases hi⟩
  | cons i l ih =>
    intro acc ct h
    obtain ⟨h1, h2⟩ := ih (deleteInboundDeps acc i) ct h
    rw [deleteInboundDeps_clientTraffics] at h1
    obtain ⟨h3, h4⟩ := mem_deleteWhere h1
    refine ⟨h3, ?_⟩
    intro i2 hi2
    rcases List.mem_cons.mp hi2 with rfl | hi3
    · intro he
      rw [he] at h4
      simp at h4
    · exact h2 i2 hi3

theorem mem_accountClients_emailFold : ∀ (es : List String) (acc : DB) (ac : AccountClient),
    ac ∈ (es.foldl deleteEmailRefs acc).accountClients →
    ac ∈ acc.accountClients ∧ ∀ e ∈ es, ac.clientEmail ≠ e := by
  intro es
  induction es with
  | nil =>
    intro acc ac h
    exact ⟨h, by intro e he; cases he⟩
  | cons e es ih =>
    intro acc ac h
    obtain ⟨h1, h2⟩ := ih (deleteEmailRefs acc e) ac h
    have h3 : ac ∈ deleteWhere (fun ac2 : AccountClient => ac2.clientEmail == e)
        acc.accountClients := h1
    obtain ⟨h4, h5⟩ := mem_deleteWhere h3
    refine ⟨h4, ?_⟩
    intro e2 he2
    rcases List.mem_cons.mp he2 with rfl | he3
    · intro he
      rw [he] at h5
      simp at h5
    · exact h2 e2 he3

theorem mem_accountClients_foldDeps : ∀ (l : List Inbound) (acc : DB) (ac : AccountClient),
    ac ∈ (l.foldl deleteInboundDeps acc).accountClients →
    ac ∈ acc.accountClients ∧
      ∀ i ∈ l, ∀ es, getClients i = .ok es → ∀ e ∈ es, ac.clientEmail ≠ e := by
  intro l
  induction l with
  | nil =>
    intro acc ac h
    exact ⟨h, by intro i hi; cases hi⟩
  | cons i l ih =>
    intro acc ac h
    obtain ⟨h1, h2⟩ := ih (deleteInboundDeps acc i) ac h
    rw [deleteInboundDeps_accountClients] at h1
    refine ⟨?_, ?_⟩
    · rcases hg : getClients i with _ | es
      · rw [hg] at h1
        exact h1
      · rw [hg] at h1
        exact (mem_accountClients_emailFold es acc ac h1).1
    · intro i2 hi2 es hes e hee
      rcases List.mem_cons.mp hi2 with rfl | hi3
      · rw [hes] at h1
        exact (mem_accountClients_emailFold es acc ac h1).2 e hee
      · exact h2 i2 hi3 es hes e hee

/-- C2: after DeleteSlave, the database holds no Inbound row of the slave, no
ClientTraffic row of any inbound the slave owned, no AccountClient row whose
email is a parseable client email of those inbounds, no SlaveCert,
OutboundTraffics or SlaveSetting row of the slave, and no slave row with its
id; the deletions are issued inside a single transaction with the slave row
deleted last (the transaction structure itself is control flow that the pure
embedding renders as one total function). -/
theorem deleteSlave_removes_all_dependents (db : DB) (id : Int) :
    (∀ i ∈ (deleteSlave db id).inbounds, i.slaveId ≠ id) ∧
    (∀ ct ∈ (deleteSlave db id).clientTraffics,
      ∀ i ∈ db.inbounds, i.slaveId = id → ct.inboundId ≠ i.id) ∧
    (∀ ac ∈ (deleteSlave db id).accountClients,
      ∀ i ∈ db.inbounds, i.slaveId = id →
        ∀ emails, getClients i = .ok emails → ∀ e ∈ emails, ac.clientEmail ≠ e) ∧
    (∀ c ∈ (deleteSlave db id).slaveCerts, c.slaveId ≠ id) ∧
    (∀ o ∈ (deleteSlave db id).outboundTraffics, o.slaveId ≠ id) ∧
    (∀ st ∈ (deleteSlave db id).slaveSettings, st.slaveId ≠ id) ∧
    (∀ s ∈ (deleteSlave db id).slaves, s.id ≠ id) := by
  have hmemfilter : ∀ i ∈ db.inbounds, i.slaveId = id →
      i ∈ db.inbounds.filter (fun i2 => i2.slaveId == id) := by
    intro i hi hs
    rw [List.mem_filter]
    exact ⟨hi, by simp [hs]⟩
  have hproj := foldDeps_proj (db.inbounds.filter (fun i2 => i2.slaveId == id)) db
  refine ⟨?_, ?_, ?_, ?_, ?_, ?_, ?_⟩
  · intro i hi
    have h2 : i ∈ deleteWhere (fun i2 : Inbound => i2.slaveId == id)
        ((db.inbounds.filter (fun i2 => i2.slaveId == id)).foldl deleteInboundDeps
          db).inbounds := hi
    have h3 := (mem_deleteWhere h2).2
    simpa using h3
  · intro ct hct i hi hs
    have h2 : ct ∈ ((db.inbounds.filter (fun i2 => i2.slaveId == id)).foldl deleteInboundDeps
        db).clientTraffics := hct
    exact (mem_clientTraffics_foldDeps _ db ct h2).2 i (hmemfilter i hi hs)
  · intro ac hac i hi hs emails hes e hee
    have h2 : ac ∈ ((db.inbounds.filter (fun i2 => i2.slaveId == id)).foldl deleteInboundDeps
        db).accountClients := hac
    exact (mem_accountClients_foldDeps _ db ac h2).2 i (hmemfilter i hi hs) emails hes e hee
  · intro c hc
    have h2 : c ∈ deleteWhere (fun c2 : SlaveCert => c2.slaveId == id)
        ((db.inbounds.filter (fun i2 => i2.slaveId == id)).foldl deleteInboundDeps
          db).slaveCerts := hc
    have h3 := (mem_deleteWhere h2).2
    simpa using h3
  · intro o ho
    have h2 : o ∈ deleteWhere (fun o2 : OutboundTraffics => o2.slaveId == id)
        ((db.inbounds.filter (fun i2 => i2.slaveId == id)).foldl deleteInboundDeps
          db).outboundTraffics := ho
    have h3 := (mem_deleteWhere h2).2
    simpa using h3
  · intro st hst
    have h2 : st ∈ deleteWhere (fun st2 : SlaveSetting => st2.slaveId == id)
        ((db.inbounds.filter (fun i2 => i2.slaveId == id)).foldl deleteInboundDeps
          db).slaveSettings := hst
    have h3 := (mem_deleteWhere h2).2
    simpa using h3
  · intro s hs
    have h2 : s ∈ deleteWhere (fun s2 : Slave => s2.id == id)
        ((db.inbounds.filter (fun i2 => i2.slaveId == id)).foldl deleteInboundDeps
          db).slaves := hs
    have h3 := (mem_deleteWhere h2).2
    simpa using h3

/-- C2 witness: the cascade on a concrete database with one slave owning one
inbound with one associated client, plus certs, outbound counters and a
setting row. -/
theorem deleteSlave_removes_all_dependents_witness :
    (let db : DB :=
      { emptyDB with
        slaves := [{ blankSlave with id := 2 }]
        inbounds := [{ blankInbound with slaveId := 2, settings := .withClients [.obj (some "v@y") 0] 0 }]
        clientTraffics := [{ blankClientTraffic with email := "v@y" }]
        accountClients := [{ accountId := 3, inboundId := 10, clientEmail := "v@y", createdAt := 0 }]
        slaveCerts := [{ slaveId := 2, domain := "d", certPath := "c", keyPath := "k", expiryTime := 0 }]
        outboundTraffics := [{ slaveId := 2, tag := "direct", up := 1, down := 1, total := 2 }]
        slaveSettings := [{ slaveId := 2, settingKey := "xrayTemplateConfig", settingValue := "t" }] }
    (∀ i ∈ (deleteSlave db 2).inbounds, i.slaveId ≠ 2) ∧
    (∀ ct ∈ (deleteSlave db 2).clientTraffics,
      ∀ i ∈ db.inbounds, i.slaveId = 2 → ct.inboundId ≠ i.id) ∧
    (∀ ac ∈ (deleteSlave db 2).accountClients,
      ∀ i ∈ db.inbounds, i.slaveId = 2 →
        ∀ emails, getClients i = .ok emails → ∀ e ∈ emails, ac.clientEmail ≠ e) ∧
    (∀ c ∈ (deleteSlave db 2).slaveCerts, c.slaveId ≠ 2) ∧
    (∀ o ∈ (deleteSlave db 2).outboundTraffics, o.slaveId ≠ 2) ∧
    (∀ st ∈ (deleteSlave db 2).slaveSettings, st.slaveId ≠ 2) ∧
    (∀ s ∈ (deleteSlave db 2).slaves, s.id ≠ 2)) :=
  deleteSlave_removes_all_dependents _ 2

/-- The per-client policy condition as the claim words it: the row is still
enabled, belongs to an inbound of the slave, and has exhausted its quota or
passed its expiry. -/
def clientOverLimit (db : DB) (slaveId nowMs : Int) (ct : ClientTraffic) : Prop :=
  ct.enable = true ∧
  (∃ i ∈ db.inbounds, i.slaveId = slaveId ∧ i.id = ct.inboundId) ∧
  ((ct.total > 0 ∧ ct.up + ct.down ≥ ct.total) ∨
   (ct.expiryTime > 0 ∧ ct.expiryTime ≤ nowMs))

instance decidableClientOverLimit (db : DB) (slaveId nowMs : Int) (ct : ClientTraffic) :
    Decidable (clientOverLimit db slaveId nowMs ct) := by
  unfold clientOverLimit
  infer_instance

theorem invalidClientCond_iff (db : DB) (s nowMs : Int) (ct : ClientTraffic) :
    invalidClientCond db s nowMs ct = true ↔ clientOverLimit db s nowMs ct := by
  simp only [invalidClientCond, clientOverLimit, Bool.and_eq_true, Bool.or_eq_true,
    decide_eq_true_eq, List.any_eq_true, beq_iff_eq]
  tauto

/-- C3: checkAndDisableInvalidClients rewrites exactly the ClientTraffic rows
satisfying the quota-or-expiry condition of its WHERE clause to enable false,
leaves every other row unchanged, counts the rewritten rows, and whenever the
count at the end of a traffic-stats ingest is positive, the same ingest pass
attempts a config push to the reporting slave. -/
theorem checkAndDisable_exact_and_triggers_push (db : DB) (s nowMs nowSec : Int)
    (msg : TrafficMsg) :
    (List.Forall₂ (fun ct ct2 =>
        (clientOverLimit db s nowMs ct → ct2 = { ct with enable := false }) ∧
        (¬ clientOverLimit db s nowMs ct → ct2 = ct))
      db.clientTraffics (checkAndDisableInvalidClients db s nowMs).1.clientTraffics) ∧
    ((checkAndDisableInvalidClients db s nowMs).2 =
      (db.clientTraffics.filter (fun ct => decide (clientOverLimit db s nowMs ct))).length) ∧
    ((checkAndDisableInvalidClients (ingestCounters db s msg nowSec nowMs) s nowMs).2 > 0 →
      (processTrafficStats db s msg nowSec nowMs).2 = true) := by
  have hpred : ∀ ct ∈ db.clientTraffics,
      invalidClientCond db s nowMs ct = decide (clientOverLimit db s nowMs ct) := by
    intro ct _
    by_cases h : clientOverLimit db s nowMs ct
    · rw [(invalidClientCond_iff db s nowMs ct).mpr h, decide_eq_true h]
    · have h1 : invalidClientCond db s nowMs ct = false := by
        rw [← Bool.not_eq_true]
        intro hc
        exact h ((invalidClientCond_iff db s nowMs ct).mp hc)
      rw [h1, decide_eq_false h]
  refine ⟨?_, ?_, ?_⟩
  · show List.Forall₂ _ db.clientTraffics
      (updateWhere (invalidClientCond db s nowMs) (fun ct => { ct with enable := false })
        db.clientTraffics)
    unfold updateWhere
    rw [List.forall₂_map_right_iff]
    rw [List.forall₂_same]
    intro ct _
    constructor
    · intro hcond
      rw [if_pos ((invalidClientCond_iff db s nowMs ct).mpr hcond)]
    · intro hcond
      rw [if_neg ?_]
      intro hc
      exact hcond ((invalidClientCond_iff db s nowMs ct).mp hc)
  · show (db.clientTraffics.filter (invalidClientCond db s nowMs)).length = _
    rw [List.filter_congr hpred]
  · intro hcount
    show (ingestPolicy (ingestCounters db s msg nowSec nowMs) s nowMs).2 = true
    unfold ingestPolicy
    have h1 : decide ((checkAndDisableInvalidClients
        (ingestCounters db s msg nowSec nowMs) s nowMs).2 > 0) = true := by
      simpa using hcount
    simp only [h1, Bool.true_or]

/-- The concrete database of the C3 witness: one enabled client over quota on
an inbound of slave 1. -/
def c3DB : DB :=
  { emptyDB with
    inbounds := [blankInbound]
    clientTraffics := [{ blankClientTraffic with total := 100, up := 60, down := 40 }] }

/-- An empty traffic-stats message. -/
def emptyMsg : TrafficMsg :=
  { onlineClients := [], inbounds := [], users := [], outbounds := [] }

/-- C3 witness: on the concrete database the row gets disabled, the count is
one, and the ingest pass attempts the push. -/
theorem checkAndDisable_exact_and_triggers_push_witness :
    (List.Forall₂ (fun ct ct2 =>
        (clientOverLimit c3DB 1 5 ct → ct2 = { ct with enable := false }) ∧
        (¬ clientOverLimit c3DB 1 5 ct → ct2 = ct))
      c3DB.clientTraffics (checkAndDisableInvalidClients c3DB 1 5).1.clientTraffics) ∧
    ((checkAndDisableInvalidClients c3DB 1 5).2 =
      (c3DB.clientTraffics.filter (fun ct => decide (clientOverLimit c3DB 1 5 ct))).length) ∧
    (processTrafficStats c3DB 1 emptyMsg 5 5).2 = true :=
  ⟨(checkAndDisable_exact_and_triggers_push c3DB 1 5 5 emptyMsg).1,
   (checkAndDisable_exact_and_triggers_push c3DB 1 5 5 emptyMsg).2.1,
   (checkAndDisable_exact_and_triggers_push c3DB 1 5 5 emptyMsg).2.2 (by decide)⟩

/-- Pointwise counter growth on one Inbound row: same identity, counters not
decreased. -/
def inboundLe (a b : Inbound) : Prop :=
  b.id = a.id ∧ b.tag = a.tag ∧ a.up ≤ b.up ∧ a.down ≤ b.down ∧ a.allTime ≤ b.allTime

/-- Pointwise counter growth on one ClientTraffic row. -/
def clientLe (a b : ClientTraffic) : Prop :=
  b.email = a.email ∧ a.up ≤ b.up ∧ a.down ≤ b.down ∧ a.allTime ≤ b.allTime

/-- Pointwise counter growth on one OutboundTraffics row. -/
def outboundLe (a b : OutboundTraffics) : Prop :=
  b.slaveId = a.slaveId ∧ b.tag = a.tag ∧ a.up ≤ b.up ∧ a.down ≤ b.down

/-- Fallback row for positional access to the outbound table. -/
def dummyOutbound : OutboundTraffics :=
  { slaveId := 0, tag := "", up := 0, down := 0, total := 0 }

/-- The outbound table may gain rows at the end, and every pre-existing
position is pointwise dominated. -/
def outboundsGrow (l l2 : List OutboundTraffics) : Prop :=
  l.length ≤ l2.length ∧
  ∀ k < l.length, outboundLe (l.getD k dummyOutbound) (l2.getD k dummyOutbound)

/-- Counter growth of a whole database on the three delta-accumulated tables:
inbound rows and client rows correspond pointwise, the outbound table only
grows. -/
def dbGrow (db db2 : DB) : Prop :=
  List.Forall₂ inboundLe db.inbounds db2.inbounds ∧
  List.Forall₂ clientLe db.clientTraffics db2.clientTraffics ∧
  outboundsGrow db.outboundTraffics db2.outboundTraffics

theorem inboundLe_refl (a : Inbound) : inboundLe a a :=
  ⟨rfl, rfl, le_refl _, le_refl _, le_refl _⟩

theorem inboundLe_trans {a b c : Inbound} (h1 : inboundLe a b) (h2 : inboundLe b c) :
    inboundLe a c :=
  ⟨h2.1.trans h1.1, h2.2.1.trans h1.2.1, h1.2.2.1.trans h2.2.2.1,
   h1.2.2.2.1.trans h2.2.2.2.1, h1.2.2.2.2.trans h2.2.2.2.2⟩

theorem clientLe_refl (a : ClientTraffic) : clientLe a a :=
  ⟨rfl, le_refl _, le_refl _, le_refl _⟩

theorem clientLe_trans {a b c : ClientTraffic} (h1 : clientLe a b) (h2 : clientLe b c) :
    clientLe a c :=
  ⟨h2.1.trans h1.1, h1.2.1.trans h2.2.1, h1.2.2.1.trans h2.2.2.1, h1.2.2.2.trans h2.2.2.2⟩

theorem outboundLe_refl (a : OutboundTraffics) : outboundLe a a :=
  ⟨rfl, rfl, le_refl _, le_refl _⟩

theorem outboundLe_trans {a b c : OutboundTraffics} (h1 : outboundLe a b)
    (h2 : outboundLe b c) : outboundLe a c :=
  ⟨h2.1.trans h1.1, h2.2.1.trans h1.2.1, h1.2.2.1.trans h2.2.2.1, h1.2.2.2.trans h2.2.2.2⟩

theorem outboundsGrow_refl (l : List OutboundTraffics) : outboundsGrow l l :=
  ⟨le_refl _, fun _ _ => outboundLe_refl _⟩

theorem outboundsGrow_trans {l1 l2 l3 : List OutboundTraffics}
    (h1 : outboundsGrow l1 l2) (h2 : outboundsGrow l2 l3) : outboundsGrow l1 l3 :=
  ⟨h1.1.trans h2.1, fun k hk =>
    outboundLe_trans (h1.2 k hk) (h2.2 k (lt_of_lt_of_le hk h1.1))⟩

theorem forall₂_trans_of {α : Type} {R : α → α → Prop}
    (ht : ∀ a b c, R a b → R b c → R a c) :
    ∀ {l1 l2 l3 : List α}, List.Forall₂ R l1 l2 → List.Forall₂ R l2 l3 →
      List.Forall₂ R l1 l3 := by
  intro l1 l2 l3 h12
  induction h12 generalizing l3 with
  | nil =>
    intro h23
    cases h23
    exact .nil
  | cons hab h ih =>
    intro h23
    cases h23 with
    | cons hbc h2 => exact .cons (ht _ _ _ hab hbc) (ih h2)

theorem dbGrow_refl (db : DB) : dbGrow db db :=
  ⟨List.forall₂_same.mpr (fun x _ => inboundLe_refl x),
   List.forall₂_same.mpr (fun x _ => clientLe_refl x),
   outboundsGrow_refl _⟩

theorem dbGrow_trans {db1 db2 db3 : DB} (h1 : dbGrow db1 db2) (h2 : dbGrow db2 db3) :
    dbGrow db1 db3 :=
  ⟨@forall₂_trans_of _ inboundLe (fun _ _ _ ha hb => inboundLe_trans ha hb) _ _ _ h1.1 h2.1,
   @forall₂_trans_of _ clientLe (fun _ _ _ ha hb => clientLe_trans ha hb) _ _ _ h1.2.1 h2.2.1,
   outboundsGrow_trans h1.2.2 h2.2.2⟩

/-- A database step that leaves the three counter tables untouched grows. -/
theorem dbGrow_of_proj {db db2 : DB} (h1 : db2.inbounds = db.inbounds)
    (h2 : db2.clientTraffics = db.clientTraffics)
    (h3 : db2.outboundTraffics = db.outboundTraffics) : dbGrow db db2 := by
  refine ⟨?_, ?_, ?_⟩
  · rw [h1]
    exact (dbGrow_refl db).1
  · rw [h2]
    exact (dbGrow_refl db).2.1
  · rw [h3]
    exact (dbGrow_refl db).2.2

theorem foldl_preserves {α β : Type} {R : β → β → Prop} (hrefl : ∀ b, R b b)
    (htrans : ∀ a b c, R a b → R b c → R a c) {step : β → α → β} :
    ∀ (l : List α) (b : β), (∀ x ∈ l, ∀ b2, R b2 (step b2 x)) → R b (l.foldl step b) := by
  intro l
  induction l with
  | nil =>
    intro b _
    exact hrefl b
  | cons x l ih =>
    intro b hstep
    exact htrans _ _ _ (hstep x (List.mem_cons_self x l) b)
      (ih (step b x) (fun y hy b2 => hstep y (List.mem_cons_of_mem x hy) b2))

theorem forall₂_updateWhere {α : Type} {R : α → α → Prop} (hrefl : ∀ a, R a a)
    {p : α → Bool} {f : α → α} (hf : ∀ a, R a (f a)) (l : List α) :
    List.Forall₂ R l (updateWhere p f l) := by
  unfold updateWhere
  rw [List.forall₂_map_right_iff, List.forall₂_same]
  intro x _
  by_cases hp : p x = true
  · rw [if_pos hp]
    exact hf x
  · rw [if_neg hp]
    exact hrefl x

theorem forall₂_updateFirstWhere {α : Type} {R : α → α → Prop} (hrefl : ∀ a, R a a)
    {p : α → Bool} {f : α → α} (hf : ∀ a, R a (f a)) :
    ∀ l : List α, List.Forall₂ R l (updateFirstWhere p f l) := by
  intro l
  induction l with
  | nil => exact .nil
  | cons x l ih =>
    unfold updateFirstWhere
    by_cases hp : p x = true
    · rw [if_pos hp]
      exact .cons (hf x) (List.forall₂_same.mpr (fun y _ => hrefl y))
    · rw [if_neg hp]
      exact .cons (hrefl x) ih

theorem length_updateFirstWhere {α : Type} {p : α → Bool} {f : α → α} :
    ∀ l : List α, (updateFirstWhere p f l).length = l.length := by
  intro l
  induction l with
  | nil => rfl
  | cons x l ih =>
    unfold updateFirstWhere
    by_cases hp : p x = true
    · rw [if_pos hp]
      rfl
    · rw [if_neg hp]
      simpa using ih

theorem getD_updateFirstWhere {α : Type} {p : α → Bool} {f : α → α} (d : α) :
    ∀ (l : List α) (k : Nat),
      (updateFirstWhere p f l).getD k d = l.getD k d ∨
      (updateFirstWhere p f l).getD k d = f (l.getD k d) := by
  intro l
  induction l with
  | nil =>
    intro k
    exact Or.inl rfl
  | cons x l ih =>
    intro k
    unfold updateFirstWhere
    by_cases hp : p x = true
    · rw [if_pos hp]
      cases k with
      | zero => exact Or.inr rfl
      | succ k => exact Or.inl rfl
    · rw [if_neg hp]
      cases k with
      | zero => exact Or.inl rfl
      | succ k => simpa using ih k

theorem dbGrow_applyInboundStat (s : Int) (st : TagStat) (h1 : 0 ≤ st.uplink)
    (h2 : 0 ≤ st.downlink) (db : DB) : dbGrow db (applyInboundStat s db st) := by
  refine ⟨?_, (dbGrow_refl db).2.1, (dbGrow_refl db).2.2⟩
  apply forall₂_updateWhere inboundLe_refl
  intro a
  exact ⟨rfl, rfl, le_add_of_nonneg_right h1, le_add_of_nonneg_right h2,
    le_add_of_nonneg_right (add_nonneg h1 h2)⟩

theorem dbGrow_applyUserStat (nowSec : Int) (st : UserStat) (h1 : 0 ≤ st.uplink)
    (h2 : 0 ≤ st.downlink) (db : DB) : dbGrow db (applyUserStat nowSec db st) := by
  unfold applyUserStat
  by_cases hc : (st.email == "" || (st.uplink == 0 && st.downlink == 0)) = true
  · rw [if_pos hc]
    exact dbGrow_refl db
  · rw [if_neg hc]
    refine ⟨(dbGrow_refl db).1, ?_, (dbGrow_refl db).2.2⟩
    apply forall₂_updateFirstWhere clientLe_refl
    intro a
    refine ⟨rfl, le_add_of_nonneg_right h1, le_add_of_nonneg_right h2, ?_⟩
    show a.allTime ≤ a.allTime + st.uplink + st.downlink
    have := add_nonneg h1 h2
    linarith

theorem dbGrow_syncAccountRow (nowMs : Int) (db : DB) (aid : Int) :
    dbGrow db (syncAccountRow nowMs db aid) :=
  dbGrow_of_proj rfl rfl rfl

theorem dbGrow_applyOutboundStat (s : Int) (st : TagStat) (h1 : 0 ≤ st.uplink)
    (h2 : 0 ≤ st.downlink) (db : DB) : dbGrow db (applyOutboundStat s db st) := by
  unfold applyOutboundStat
  by_cases hc : (st.uplink == 0 && st.downlink == 0) = true
  · rw [if_pos hc]
    exact dbGrow_refl db
  · rw [if_neg hc]
    rcases hf : db.outboundTraffics.find? (fun o => o.tag == st.tag && o.slaveId == s)
      with _ | o
    all_goals rw [hf]
    · refine ⟨(dbGrow_refl db).1, (dbGrow_refl db).2.1, ?_, ?_⟩
      · simp
      · intro k hk
        rw [List.getD_append _ _ _ _ hk]
        exact outboundLe_refl _
    · refine ⟨(dbGrow_refl db).1, (dbGrow_refl db).2.1, ?_, ?_⟩
      · rw [length_updateFirstWhere]
      · intro k hk
        rcases getD_updateFirstWhere dummyOutbound db.outboundTraffics k with he | he
        · rw [he]
          exact outboundLe_refl _
        · rw [he]
          exact ⟨rfl, rfl, le_add_of_nonneg_right h1, le_add_of_nonneg_right h2⟩

theorem dbGrow_checkAndDisable (s nowMs : Int) (db : DB) :
    dbGrow db (checkAndDisableInvalidClients db s nowMs).1 := by
  refine ⟨(dbGrow_refl db).1, ?_, (dbGrow_refl db).2.2⟩
  apply forall₂_updateWhere clientLe_refl
  intro a
  exact ⟨rfl, le_refl _, le_refl _, le_refl _⟩

theorem dbGrow_pair_step {α : Type} {step : (DB × List Int) → α → (DB × List Int)}
    (hstep : ∀ x (b2 : DB × List Int), dbGrow b2.1 (step b2 x).1) (l : List α)
    (b : DB × List Int) : dbGrow b.1 (l.foldl step b).1 :=
  @foldl_preserves α (DB × List Int) (fun a b => dbGrow a.1 b.1)
    (fun b2 => dbGrow_refl b2.1) (fun a b c ha hb => dbGrow_trans ha hb) step l b
    (fun x _ b2 => hstep x b2)

theorem dbGrow_disableAssocStep (assoc : AccountClient) (b2 : DB × List Int) :
    dbGrow b2.1 (disableAssocStep b2 assoc).1 := by
  refine ⟨(dbGrow_refl b2.1).1, ?_, (dbGrow_refl b2.1).2.2⟩
  apply forall₂_updateWhere clientLe_refl
  intro a
  exact ⟨rfl, le_refl _, le_refl _, le_refl _⟩

theorem dbGrow_disableAccountAndClients (st : DB × List Int) (aid : Int) :
    dbGrow st.1 (disableAccountAndClients st aid).1 := by
  unfold disableAccountAndClients
  exact @dbGrow_trans st.1
    { st.1 with accounts := updateWhere (fun a => a.id == aid) (fun a => { a with enable := false }) st.1.accounts }
    _ (dbGrow_of_proj rfl rfl rfl)
    (dbGrow_pair_step (fun assoc b2 => dbGrow_disableAssocStep assoc b2)
      (List.filter (fun ac => ac.accountId == aid) st.1.accountClients)
      ⟨{ st.1 with accounts := updateWhere (fun a => a.id == aid) (fun a => { a with enable := false }) st.1.accounts }, st.2⟩)

theorem dbGrow_disableLimit (db : DB) :
    dbGrow db (disableClientsExceedingAccountLimit db).1 := by
  unfold disableClientsExceedingAccountLimit
  refine dbGrow_pair_step ?_
    (List.filter (fun a => decide (a.totalGB > 0) && a.enable) db.accounts) (db, [])
  intro account b2
  by_cases hcond : (getAccountTrafficUsage b2.1 account.id).1 +
      (getAccountTrafficUsage b2.1 account.id).2 ≥ account.totalGB * 1024 * 1024 * 1024
  · rw [if_pos hcond]
    exact dbGrow_disableAccountAndClients b2 account.id
  · rw [if_neg hcond]
    exact dbGrow_refl b2.1

theorem dbGrow_disableExpired (db : DB) (nowMs : Int) :
    dbGrow db (disableExpiredAccountClients db nowMs).1 := by
  unfold disableExpiredAccountClients
  refine dbGrow_pair_step ?_
    (List.filter (fun a => decide (a.expiryTime > 0) && decide (a.expiryTime ≤ nowMs) && a.enable)
      db.accounts) (db, [])
  intro account b2
  exact dbGrow_disableAccountAndClients b2 account.id

theorem dbGrow_ingestPolicy (db : DB) (s nowMs : Int) :
    dbGrow db (ingestPolicy db s nowMs).1 := by
  unfold ingestPolicy
  exact dbGrow_trans (dbGrow_checkAndDisable s nowMs db)
    (dbGrow_trans (dbGrow_disableLimit _) (dbGrow_disableExpired _ nowMs))

theorem dbGrow_ingestCounters (db : DB) (s : Int) (msg : TrafficMsg) (nowSec nowMs : Int)
    (hin : ∀ st ∈ msg.inbounds, 0 ≤ st.uplink ∧ 0 ≤ st.downlink)
    (hus : ∀ st ∈ msg.users, 0 ≤ st.uplink ∧ 0 ≤ st.downlink)
    (hout : ∀ st ∈ msg.outbounds, 0 ≤ st.uplink ∧ 0 ≤ st.downlink) :
    dbGrow db (ingestCounters db s msg nowSec nowMs) := by
  have h1 : dbGrow db (msg.inbounds.foldl (applyInboundStat s) db) :=
    @foldl_preserves TagStat DB dbGrow dbGrow_refl (fun a b c ha hb => dbGrow_trans ha hb)
      (applyInboundStat s) msg.inbounds db
      (fun x hx b2 => dbGrow_applyInboundStat s x (hin x hx).1 (hin x hx).2 b2)
  have h2 : ∀ d : DB, dbGrow d (msg.users.foldl (applyUserStat nowSec) d) := fun d =>
    @foldl_preserves UserStat DB dbGrow dbGrow_refl (fun a b c ha hb => dbGrow_trans ha hb)
      (applyUserStat nowSec) msg.users d
      (fun x hx b2 => dbGrow_applyUserStat nowSec x (hus x hx).1 (hus x hx).2 b2)
  have h3 : ∀ (ids : List Int) (d : DB), dbGrow d (ids.foldl (syncAccountRow nowMs) d) :=
    fun ids d =>
    @foldl_preserves Int DB dbGrow dbGrow_refl (fun a b c ha hb => dbGrow_trans ha hb)
      (syncAccountRow nowMs) ids d (fun x _ b2 => dbGrow_syncAccountRow nowMs b2 x)
  have h4 : ∀ d : DB, dbGrow d (msg.outbounds.foldl (applyOutboundStat s) d) := fun d =>
    @foldl_preserves TagStat DB dbGrow dbGrow_refl (fun a b c ha hb => dbGrow_trans ha hb)
      (applyOutboundStat s) msg.outbounds d
      (fun x hx b2 => dbGrow_applyOutboundStat s x (hout x hx).1 (hout x hx).2 b2)
  exact dbGrow_trans h1 (dbGrow_trans (h2 _) (dbGrow_trans (h3 _ _) (h4 _)))

theorem dbGrow_processTrafficStats (db : DB) (s : Int) (msg : TrafficMsg)
    (nowSec nowMs : Int)
    (hin : ∀ st ∈ msg.inbounds, 0 ≤ st.uplink ∧ 0 ≤ st.downlink)
    (hus : ∀ st ∈ msg.users, 0 ≤ st.uplink ∧ 0 ≤ st.downlink)
    (hout : ∀ st ∈ msg.outbounds, 0 ≤ st.uplink ∧ 0 ≤ st.downlink) :
    dbGrow db (processTrafficStats db s msg nowSec nowMs).1 :=
  dbGrow_trans (dbGrow_ingestCounters db s msg nowSec nowMs hin hus hout)
    (dbGrow_ingestPolicy _ s nowMs)

/-- One traffic-stats ingest pass with its reporting slave and clock values. -/
structure IngestCall where
  slaveId : Int
  msg : TrafficMsg
  nowSec : Int
  nowMs : Int
deriving Repr

/-- Run one ingest pass, keeping the database. -/
def runIngest (db : DB) (c : IngestCall) : DB :=
  (processTrafficStats db c.slaveId c.msg c.nowSec c.nowMs).1

/-- The concrete database of the C8 scenario: one account whose cached up is
the sum of its two clients. -/
def c8DB : DB :=
  { emptyDB with
    accounts := [{ blankAccount with up := 150 }]
    inbounds := [blankInbound]
    clientTraffics := [{ blankClientTraffic with email := "e1", accountId := 1, up := 100 },
      { blankClientTraffic with email := "e2", accountId := 1, up := 50 }]
    accountClients := [{ accountId := 1, inboundId := 10, clientEmail := "e1", createdAt := 0 },
      { accountId := 1, inboundId := 10, clientEmail := "e2", createdAt := 0 }] }

/-- A traffic-stats message reporting one byte of uplink for client e2. -/
def c8Msg : TrafficMsg :=
  { onlineClients := []
    inbounds := []
    users := [{ email := "e2", uplink := 1, downlink := 0 }]
    outbounds := [] }

/-- C8 counterexample: RemoveClientFromAccount (a lifecycle operation, not a
reset) followed by an ingest pass with a positive delta makes Account.up drop
from 150 to 51, because the ingest overwrites the account counters with the
sums over the rows still carrying the account id. -/
theorem account_counters_can_decrease_without_reset :
    ((processTrafficStats (removeClientFromAccount c8DB 1 "e1") 1 c8Msg 0 0).1.accounts.map
      (fun a => a.up)) = [51] ∧
    (c8DB.accounts.map (fun a => a.up)) = [150] ∧ (51 : Int) < 150 := by
  decide

/-- C8 (amended): across any sequence of traffic-stats ingest passes whose
reported deltas are all non-negative, the Inbound and ClientTraffic tables
evolve pointwise non-decreasingly in up, down and allTime and the
OutboundTraffics table only grows; the Account counters are excluded: they
are overwritten with current sums and can decrease after an
association-removing lifecycle operation such as RemoveClientFromAccount. -/
theorem traffic_tables_monotone_across_ingests (db : DB) (calls : List IngestCall)
    (h : ∀ c ∈ calls, (∀ st ∈ c.msg.inbounds, 0 ≤ st.uplink ∧ 0 ≤ st.downlink) ∧
      (∀ st ∈ c.msg.users, 0 ≤ st.uplink ∧ 0 ≤ st.downlink) ∧
      (∀ st ∈ c.msg.outbounds, 0 ≤ st.uplink ∧ 0 ≤ st.downlink)) :
    dbGrow db (calls.foldl runIngest db) := by
  apply @foldl_preserves IngestCall DB dbGrow dbGrow_refl
    (fun a b c ha hb => dbGrow_trans ha hb) runIngest calls db
  intro c hc b2
  exact dbGrow_processTrafficStats b2 c.slaveId c.msg c.nowSec c.nowMs
    (h c hc).1 (h c hc).2.1 (h c hc).2.2

/-- C8 amended witness: one concrete ingest call with non-negative deltas. -/
theorem traffic_tables_monotone_across_ingests_witness :
    dbGrow c8DB ([{ slaveId := 1, msg := c8Msg, nowSec := 0, nowMs := 0 }].foldl
      runIngest c8DB) :=
  traffic_tables_monotone_across_ingests c8DB
    [{ slaveId := 1, msg := c8Msg, nowSec := 0, nowMs := 0 }] (by decide)

/-- The effective-enable rule exactly as the claim words it: look the client
email up in the ClientTraffic table; when the traffic row carries a positive
account id and that account exists, the account flag decides, otherwise the
traffic-row flag; a client with no traffic row, and a client entry without an
email, is kept. -/
def effectiveEnableSpec (db : DB) (c : ClientEntry) : Bool :=
  match c with
  | .nonObj _ => true
  | .obj none _ => true
  | .obj (some e) _ =>
    match db.clientTraffics.find? (fun ct => ct.email == e) with
    | none => true
    | some ct =>
      if ct.accountId > 0 then
        match db.accounts.find? (fun a => a.id == ct.accountId) with
        | some a => a.enable
        | none => ct.enable
      else ct.enable

theorem getLast?_filter_eq_find? {α β : Type} [BEq β] [LawfulBEq β] (f : α → β)
    {l : List α} (h : (l.map f).Nodup) (b : β) :
    (l.filter (fun x => f x == b)).getLast? = l.find? (fun x => f x == b) := by
  induction l with
  | nil => rfl
  | cons x xs ih =>
    rw [List.map_cons, List.nodup_cons] at h
    by_cases hb : (f x == b) = true
    · rw [@List.filter_cons_of_pos _ (fun y => f y == b) x xs hb,
        @List.find?_cons_of_pos _ (fun y => f y == b) x xs hb]
      have hempty : xs.filter (fun y => f y == b) = [] := by
        rw [List.filter_eq_nil_iff]
        intro y hy hyb
        rw [beq_iff_eq] at hb hyb
        apply h.1
        rw [hb, ← hyb]
        exact List.mem_map_of_mem f hy
      rw [hempty]
      rfl
    · rw [@List.filter_cons_of_neg _ (fun y => f y == b) x xs hb,
        @List.find?_cons_of_neg _ (fun y => f y == b) x xs hb]
      exact ih h.2

theorem filterMap_eq_filter_of {α : Type} {d : α → Option α} {p : α → Bool} :
    ∀ {l : List α}, (∀ c ∈ l, d c = if p c then some c else none) →
      l.filterMap d = l.filter p := by
  intro l
  induction l with
  | nil => intro _; rfl
  | cons x xs ih =>
    intro h
    rw [List.filterMap_cons, h x (List.mem_cons_self x xs)]
    by_cases hp : p x = true
    · rw [if_pos hp, List.filter_cons_of_pos hp]
      show x :: xs.filterMap d = x :: xs.filter p
      rw [ih (fun c hc => h c (List.mem_cons_of_mem x hc))]
    · rw [if_neg hp, List.filter_cons_of_neg hp]
      show xs.filterMap d = xs.filter p
      rw [ih (fun c hc => h c (List.mem_cons_of_mem x hc))]

theorem inboundTraffics_filter_email (db : DB) (i : Inbound) (cs : List ClientEntry)
    (hinb : ∀ ct ∈ db.clientTraffics,
      (∃ p, ClientEntry.obj (some ct.email) p ∈ cs) → ct.inboundId = i.id)
    (e : String) (p0 : Nat) (he : ClientEntry.obj (some e) p0 ∈ cs) :
    (inboundTraffics db i.id).filter (fun ct => ct.email == e) =
      db.clientTraffics.filter (fun ct => ct.email == e) := by
  unfold inboundTraffics
  rw [List.filter_filter]
  apply List.filter_congr
  intro ct hct
  by_cases hem : (ct.email == e) = true
  · have hid : ct.inboundId = i.id := by
      apply hinb ct hct
      refine ⟨p0, ?_⟩
      rw [beq_iff_eq] at hem
      rw [hem]
      exact he
    simp [hem, hid]
  · rw [Bool.not_eq_true] at hem
    simp [hem]

theorem accountEnableMap_eq_find (db : DB) (traffics : List ClientTraffic)
    (haccuniq : (db.accounts.map (fun a => a.id)).Nodup)
    (aid : Int) (hmem : aid ∈ accountIdsOf traffics) :
    accountEnableMap db traffics aid =
      (db.accounts.find? (fun a => a.id == aid)).map (fun a => a.enable) := by
  unfold accountEnableMap
  rw [List.filter_filter]
  have hcong : db.accounts.filter
      (fun a => (a.id == aid) && (accountIdsOf traffics).contains a.id) =
      db.accounts.filter (fun a => a.id == aid) := by
    apply List.filter_congr
    intro a _
    by_cases hida : (a.id == aid) = true
    · rw [beq_iff_eq] at hida
      simp [hida, hmem]
    · rw [Bool.not_eq_true] at hida
      simp [hida]
  rw [hcong, getLast?_filter_eq_find? (fun a : Account => a.id) haccuniq aid]

theorem finalEnabled_eq_spec (db : DB) (i : Inbound) (ct : ClientTraffic)
    (haccuniq : (db.accounts.map (fun a => a.id)).Nodup)
    (hctmem : ct ∈ inboundTraffics db i.id) :
    finalEnabled db (inboundTraffics db i.id) ct =
      (if ct.accountId > 0 then
        match db.accounts.find? (fun a => a.id == ct.accountId) with
        | some a => a.enable
        | none => ct.enable
      else ct.enable) := by
  unfold finalEnabled
  by_cases hpos : ct.accountId > 0
  · rw [if_pos hpos, if_pos hpos]
    have hmem : ct.accountId ∈ accountIdsOf (inboundTraffics db i.id) := by
      unfold accountIdsOf
      rw [List.mem_map]
      refine ⟨ct, ?_, rfl⟩
      rw [List.mem_filter]
      exact ⟨hctmem, by simp [hpos]⟩
    rw [accountEnableMap_eq_find db _ haccuniq ct.accountId hmem]
    rcases hf : db.accounts.find? (fun a => a.id == ct.accountId) with _ | a
    · rw [hf]
      rfl
    · rw [hf]
      rfl
  · rw [if_neg hpos, if_neg hpos]

theorem clientDecision_eq_spec (db : DB) (i : Inbound) (cs : List ClientEntry)
    (huniq : (db.clientTraffics.map (fun ct => ct.email)).Nodup)
    (haccuniq : (db.accounts.map (fun a => a.id)).Nodup)
    (hinb : ∀ ct ∈ db.clientTraffics,
      (∃ p, ClientEntry.obj (some ct.email) p ∈ cs) → ct.inboundId = i.id)
    (c : ClientEntry) (hc : c ∈ cs)
    (hobjc : ∃ e p, c = ClientEntry.obj e p ∧ e ≠ some "") :
    clientDecision db (inboundTraffics db i.id) c =
      if effectiveEnableSpec db c then some c else none := by
  obtain ⟨eo, p0, rfl, hne⟩ := hobjc
  rcases eo with _ | e
  · rfl
  · have hene : (e == "") = false := by
      rw [beq_eq_false_iff_ne]
      intro h
      exact hne (by rw [h])
    unfold clientDecision effectiveEnableSpec
    dsimp only
    rw [hene]
    show (match enableMapLookup db (inboundTraffics db i.id) e with
      | some false => none
      | _ => some (ClientEntry.obj (some e) p0)) = _
    unfold enableMapLookup
    rw [inboundTraffics_filter_email db i cs hinb e p0 hc,
      getLast?_filter_eq_find? (fun ct : ClientTraffic => ct.email) huniq e]
    rcases hf : db.clientTraffics.find? (fun ct => ct.email == e) with _ | ct
    · rw [hf]
      rfl
    · have hctmem : ct ∈ inboundTraffics db i.id := by
        have h1 := List.mem_of_find?_eq_some hf
        have h2 := List.find?_some hf
        rw [beq_iff_eq] at h2
        unfold inboundTraffics
        rw [List.mem_filter]
        refine ⟨h1, ?_⟩
        have hid : ct.inboundId = i.id := by
          apply hinb ct h1
          refine ⟨p0, ?_⟩
          rw [h2]
          exact hc
        simp [hid]
      rw [hf, Option.map_some', finalEnabled_eq_spec db i ct haccuniq hctmem]
      dsimp only
      by_cases hpos : ct.accountId > 0
      · rw [if_pos hpos]
        rcases hg : db.accounts.find? (fun a => a.id == ct.accountId) with _ | a
        · rw [hg]
          cases hcte : ct.enable <;> simp [hcte]
        · rw [hg]
          cases hae : a.enable <;> simp [hae]
      · rw [if_neg hpos]
        cases hcte : ct.enable <;> simp [hcte]

theorem filterDisabledClients_spec (db : DB) (i : Inbound) (cs : List ClientEntry)
    (others : Nat) (hset : i.settings = .withClients cs others)
    (hobj : ∀ c ∈ cs, ∃ e p, c = ClientEntry.obj e p ∧ e ≠ some "")
    (huniq : (db.clientTraffics.map (fun ct => ct.email)).Nodup)
    (haccuniq : (db.accounts.map (fun a => a.id)).Nodup)
    (hinb : ∀ ct ∈ db.clientTraffics,
      (∃ p, ClientEntry.obj (some ct.email) p ∈ cs) → ct.inboundId = i.id) :
    filterDisabledClients db i =
      ({ i with settings := .withClients (cs.filter (effectiveEnableSpec db)) others },
       false) := by
  unfold filterDisabledClients
  rw [hset]
  dsimp only
  by_cases hcs : cs.isEmpty = true
  · rw [if_pos hcs]
    rw [List.isEmpty_iff] at hcs
    subst hcs
    rw [List.filter_nil, ← hset]
  · rw [if_neg hcs]
    have hfm : cs.filterMap (clientDecision db (inboundTraffics db i.id)) =
        cs.filter (effectiveEnableSpec db) :=
      filterMap_eq_filter_of
        (fun c hc => clientDecision_eq_spec db i cs huniq haccuniq hinb c hc (hobj c hc))
    rw [hfm]

/-- C1: for an enabled inbound of the slave whose settings parse as an object
with a clients array of JSON-object entries carrying non-empty emails, and
with unique traffic-row emails and account ids whose rows for those emails
sit on this inbound, the assembled config contains the inbound rendered with
exactly the clients whose effective enable flag is true: the account flag
when the traffic row has a positive resolving account id, the traffic-row
flag otherwise; entries without a traffic row or without an email are kept. -/
theorem pushConfig_filters_by_effective_enable (db : DB) (t : XrayConfig) (s : Int)
    (i : Inbound) (cs : List ClientEntry) (others : Nat)
    (hmem : i ∈ db.inbounds) (hs : i.slaveId = s) (hen : i.enable = true)
    (hset : i.settings = .withClients cs others)
    (hobj : ∀ c ∈ cs, ∃ e p, c = ClientEntry.obj e p ∧ e ≠ some "")
    (huniq : (db.clientTraffics.map (fun ct => ct.email)).Nodup)
    (haccuniq : (db.accounts.map (fun a => a.id)).Nodup)
    (hinb : ∀ ct ∈ db.clientTraffics,
      (∃ p, ClientEntry.obj (some ct.email) p ∈ cs) → ct.inboundId = i.id) :
    ∃ cfg, pushConfig db (some t) true s = Except.ok cfg ∧
      genXrayInboundConfig
        { i with settings := .withClients (cs.filter (effectiveEnableSpec db)) others } ∈
        cfg.inboundConfigs := by
  have hfd := filterDisabledClients_spec db i cs others hset hobj huniq haccuniq hinb
  have hrender : renderInbound db i = genXrayInboundConfig
      { i with settings := .withClients (cs.filter (effectiveEnableSpec db)) others } := by
    unfold renderInbound
    rw [hfd]
    rfl
  refine ⟨_, rfl, ?_⟩
  show genXrayInboundConfig _ ∈ t.inboundConfigs ++ _
  rw [foldl_append_filter (fun i2 : Inbound => i2.enable) (renderInbound db)]
  refine List.mem_append_right _ ?_
  rw [List.nil_append, List.mem_map]
  refine ⟨i, ?_, hrender⟩
  rw [List.mem_filter]
  refine ⟨?_, hen⟩
  simp only [getInboundsForSlave, List.mem_filter]
  exact ⟨hmem, by simp [hs]⟩

/-- Clients list of the C1 witness inbound. -/
def c1Clients : List ClientEntry := [.obj (some "alice") 0, .obj (some "bob") 1]

/-- Settings of the C1 witness inbound. -/
def c1Settings : SettingsDoc := .withClients c1Clients 7

/-- The C1 witness inbound. -/
def c1Inbound : Inbound := { blankInbound with settings := c1Settings }

/-- Traffic row of the kept witness client (enabled, no account). -/
def c1AliceRow : ClientTraffic := { blankClientTraffic with email := "alice" }

/-- Traffic row of the dropped witness client (tied to account 5). -/
def c1BobRow : ClientTraffic := { blankClientTraffic with email := "bob", accountId := 5 }

/-- The disabled account of the C1 witness. -/
def c1Account : Account := { blankAccount with id := 5, enable := false }

/-- The concrete database of the C1 witness: two clients on one inbound, one
kept (enabled, no account), one dropped through its disabled account. -/
def c1DB : DB :=
  { emptyDB with
    inbounds := [c1Inbound]
    clientTraffics := [c1AliceRow, c1BobRow]
    accounts := [c1Account] }

/-- C1 witness: the concrete scenario pushed through the theorem. -/
theorem pushConfig_filters_by_effective_enable_witness :
    ∃ cfg, pushConfig c1DB
        (some { inboundConfigs := [], others := 0 }) true 1 = Except.ok cfg ∧
      genXrayInboundConfig
        { c1Inbound with
          settings := .withClients (c1Clients.filter (effectiveEnableSpec c1DB)) 7 } ∈
        cfg.inboundConfigs := by
  refine pushConfig_filters_by_effective_enable c1DB
    { inboundConfigs := [], others := 0 } 1 c1Inbound c1Clients 7
    (by decide) rfl rfl rfl ?_ (by decide) (by decide) ?_
  · intro c hc
    rcases List.mem_cons.mp hc with rfl | hc2
    · exact ⟨some "alice", 0, rfl, by decide⟩
    · rcases List.mem_cons.mp hc2 with rfl | hc3
      · exact ⟨some "bob", 1, rfl, by decide⟩
      · cases hc3
  · intro ct hct _
    rcases List.mem_cons.mp hct with rfl | hct2
    · rfl
    · rcases List.mem_cons.mp hct2 with rfl | hct3
      · rfl
      · cases hct3

/-- C9 amended witness: one concrete AddSlave call with an empty secret. -/
theorem addSlave_appends_generated_secret_witness :
    ∃ s2 : Slave,
      addSlave emptyDB blankSlave (fun _ => 0) 0 =
        { emptyDB with slaves := emptyDB.slaves ++ [s2] } ∧
      s2.secret = generateRandomSecret 32 (fun _ => 0) ∧
      s2.secret.length = 32 ∧
      s2.status = "offline" ∧
      ∀ c ∈ s2.secret.toList, c ∈ secretCharset :=
  addSlave_appends_generated_secret emptyDB blankSlave (fun _ => 0) 0 rfl

end ThreeXUI
